import Mathlib

/-!
Verification of the `hasc` HAS-to-68000 compiler against its specification.

This file gives a shallow embedding, in Lean, of the parts of the compiler
that the frozen claims C1..C10 talk about:

* `src/hasc/ast.py` : the type-size / signedness helpers and the expression
  and statement shapes used by the code generator (embedded as a fragment
  covering numbers, variable references and the arithmetic binary operators,
  and the statement forms var-decl / compound-assign / repeat / return);
* `src/hasc/codegen_utils.py` : `fold_constant`, `struct_size_and_offsets`,
  `frame_offset`, `expr_to_comment`;
* `src/hasc/validator.py` : `Validator._struct_size_and_offsets` and the
  error-accumulation contract of `Validator.validate` (embedded for a module
  fragment of constant declarations);
* `src/hasc/codegen.py` : `_is_unsigned_expr`, `_emit_expr` (on the fragment),
  `_emit_comparison_branch_inverted`, the `CompoundAssign` / `RepeatLoop` /
  `Return` branches of `_emit_stmt`, `_analyze_proc`, `_choose_frame_register`
  and the procedure-emission part of `CodeGen.gen`;
* `src/hasc/peepholeopt.py` : all thirteen passes and the bounded driver
  `peephole_optimize`, with the regular expressions of the source transcribed
  as character-level matchers;
* `src/hasc/cli.py` : the control flow of `main` after the source was read,
  with the file system modelled as the optional prior content of the output
  file.

Python `int` is embedded as `Int` (arbitrary precision, floor division),
Python strings as `String`, Python lists as `List`, `None` as `Option`.
-/

namespace Hasc

/-! ## ast.py : type helpers -/

/-- `ast.type_size`: size in bytes for a type name; unknown types default
to 4 (`ALL_TYPES.get(typename, 4)`). -/
def typeSize (t : String) : Nat :=
  if t = "byte" ∨ t = "i8" ∨ t = "u8" ∨ t = "char" ∨ t = "bool" ∨ t = "UBYTE" ∨ t = "BYTE" then 1
  else if t = "word" ∨ t = "i16" ∨ t = "u16" ∨ t = "short" ∨ t = "UWORD" ∨ t = "WORD" then 2
  else if t = "void" then 0
  else 4

/-- `ast.is_signed`: membership in the fixed set of signed type names. -/
def isSigned (t : String) : Bool :=
  t = "byte" || t = "i8" || t = "i16" || t = "i32" || t = "word" || t = "long" ||
  t = "int" || t = "short" || t = "char" || t = "BYTE" || t = "WORD" || t = "LONG"

/-- `ast.size_suffix`: assembler suffix for a byte size, defaulting to `.l`. -/
def sizeSuffix (n : Nat) : String :=
  if n = 1 then ".b" else if n = 2 then ".w" else ".l"

/-! ## Expression fragment

The code generator's expression walker is embedded on the fragment consisting
of number literals, variable references, and the four arithmetic binary
operators `+ - * /` (`ast.Number`, `ast.VarRef`, `ast.BinOp`).  This fragment
covers every code path the claims about expression lowering name. -/

/-- Arithmetic binary operators of `ast.BinOp` covered by the fragment. -/
inductive BOp
  | add
  | sub
  | mul
  | div
deriving DecidableEq, Repr

/-- Expression fragment (`ast.Number`, `ast.VarRef`, `ast.BinOp`). -/
inductive Expr
  | num (value : Int)
  | varRef (name : String)
  | binop (op : BOp) (left : Expr) (right : Expr)
deriving DecidableEq, Repr

/-- The comparison operators handled by `_emit_comparison_branch_inverted`. -/
inductive CmpOp
  | ceq
  | cne
  | clt
  | cle
  | cgt
  | cge
deriving DecidableEq, Repr

/-- Lookup in an association list standing for a Python dict keyed by name. -/
def lookupConst (constants : List (String × Int)) (n : String) : Option Int :=
  (constants.find? (fun p => p.1 = n)).map (fun p => p.2)

/-- `codegen_utils.fold_constant` on the fragment.  Returns the
`(is_constant, value)` pair of the source; Python `//` is floor division,
hence `Int.fdiv`. -/
def foldConstant (constants : List (String × Int)) : Expr → Bool × Int
  | .num v => (true, v)
  | .varRef n =>
      match lookupConst constants n with
      | some v => (true, v)
      | none => (false, 0)
  | .binop op l r =>
      match foldConstant constants l, foldConstant constants r with
      | (true, lv), (true, rv) =>
          match op with
          | .add => (true, lv + rv)
          | .sub => (true, lv - rv)
          | .mul => (true, lv * rv)
          | .div => if rv ≠ 0 then (true, Int.fdiv lv rv) else (false, 0)
      | _, _ => (false, 0)

/-! ## Struct layout (claim C3)

`codegen_utils.struct_size_and_offsets` and
`Validator._struct_size_and_offsets` both walk the field list accumulating a
byte offset, but with different alignment steps. -/

/-- Field size suffixes `.b`, `.w`, `.l` (`ast.StructField.size_suffix`). -/
inductive FSuffix
  | b
  | w
  | l
deriving DecidableEq, Repr

/-- `size_map = {'b': 1, 'w': 2, 'l': 4}`. -/
def fsizeOf : FSuffix → Nat
  | .b => 1
  | .w => 2
  | .l => 4

/-- `ast.StructField` (name plus size suffix). -/
structure SField where
  name : String
  suffix : FSuffix
deriving DecidableEq, Repr

/-- Offset walk of `codegen_utils.struct_size_and_offsets`: long fields are
aligned to 4 (`if offset & 3: offset += 4 - (offset & 3)`), word fields to 2,
byte fields unpadded; the final size is rounded up to even. -/
def structLayoutCGGo : List SField → Nat → Nat × List (SField × Nat)
  | [], offset => (if offset % 2 = 1 then offset + 1 else offset, [])
  | f :: rest, offset =>
      let aligned :=
        match f.suffix with
        | .l => if offset % 4 ≠ 0 then offset + (4 - offset % 4) else offset
        | .w => if offset % 2 = 1 then offset + 1 else offset
        | .b => offset
      let next := structLayoutCGGo rest (aligned + fsizeOf f.suffix)
      (next.1, (f, aligned) :: next.2)

/-- `codegen_utils.struct_size_and_offsets` (used by the code generator). -/
def structLayoutCG (fields : List SField) : Nat × List (SField × Nat) :=
  structLayoutCGGo fields 0

/-- Offset walk of `Validator._struct_size_and_offsets`: any field of size at
least 2 is aligned only to 2 (`if fsize >= 2 and (offset & 1): offset += 1`);
the final size is rounded up to even. -/
def structLayoutValGo : List SField → Nat → Nat × List (SField × Nat)
  | [], offset => (if offset % 2 = 1 then offset + 1 else offset, [])
  | f :: rest, offset =>
      let aligned := if 2 ≤ fsizeOf f.suffix ∧ offset % 2 = 1 then offset + 1 else offset
      let next := structLayoutValGo rest (aligned + fsizeOf f.suffix)
      (next.1, (f, aligned) :: next.2)

/-- `Validator._struct_size_and_offsets` (used by the validator). -/
def structLayoutVal (fields : List SField) : Nat × List (SField × Nat) :=
  structLayoutValGo fields 0

theorem structLayout_agree_go (fields : List SField) :
    (∀ f ∈ fields, f.suffix ≠ FSuffix.l) →
    ∀ offset, structLayoutValGo fields offset = structLayoutCGGo fields offset := by
  induction fields with
  | nil => intro _ offset; rfl
  | cons f rest ih =>
      intro h offset
      have hf : f.suffix ≠ FSuffix.l := h f (List.mem_cons_self f rest)
      have hrest : ∀ g ∈ rest, g.suffix ≠ FSuffix.l :=
        fun g hg => h g (List.mem_cons_of_mem f hg)
      cases hsuf : f.suffix with
      | l => exact absurd hsuf hf
      | b =>
          simp only [structLayoutValGo, structLayoutCGGo, hsuf, fsizeOf]
          rw [ih hrest]
          simp
      | w =>
          simp only [structLayoutValGo, structLayoutCGGo, hsuf, fsizeOf]
          rw [ih hrest]
          simp

/-! ## codegen.py : expression lowering -/

/-- `ast.Param`: formal parameter (name, type, optional pinned register).
The source sometimes stores the string `"None"` instead of `None` in the
register slot; `paramReg` performs the normalization the source repeats. -/
structure Param where
  name : String
  ptype : String
  register : Option String
deriving DecidableEq, Repr

/-- Normalization `reg = p.register; if reg == 'None': reg = None` that the
source performs at each use site. -/
def paramReg (p : Param) : Option String :=
  match p.register with
  | none => none
  | some r => if r = "None" then none else some r

/-- locals_info entry `(name, vtype, offset)` as produced by `_analyze_proc`. -/
abbrev LocalInfo := String × Option String × Nat

/-- `codegen_utils.frame_offset`: the string `f"{-offset}({frame_reg})"`. -/
def frameOffset (offset : Nat) (frameReg : String) : String :=
  toString (-(offset : Int)) ++ "(" ++ frameReg ++ ")"

/-- Module-level tables of `CodeGen` used by the embedded fragment:
`self.constants` and `self.globals` (name to element size letter). -/
structure Ctx where
  constants : List (String × Int)
  globals : List (String × String)
deriving Repr

/-- `next((l for l in locals_info if l[0] == name), None)`. -/
def lookupLocal (locals : List LocalInfo) (n : String) : Option LocalInfo :=
  locals.find? (fun l => l.1 = n)

/-- `next((p for p in params if p.name == name), None)`. -/
def lookupParam (params : List Param) (n : String) : Option Param :=
  params.find? (fun p => p.name = n)

/-- Membership plus value lookup for `self.globals` (name to size letter). -/
def lookupGlobal (globals : List (String × String)) (n : String) : Option String :=
  (globals.find? (fun p => p.1 = n)).map (fun p => p.2)

/-- `stack_params = [p for p in params if not (p.register and p.register != 'None')]`. -/
def stackParams (params : List Param) : List Param :=
  params.filter (fun p => (paramReg p).isNone)

/-- `CodeGen._is_unsigned_expr`: a variable reference to a local with a
declared unsigned type; every other expression defaults to signed. -/
def isUnsignedExpr (locals : List LocalInfo) : Expr → Bool
  | .varRef name =>
      match lookupLocal locals name with
      | some (_, vtype, _) =>
          match vtype with
          | none => false
          | some t => !(isSigned t)
      | none => false
  | _ => false

/-- The power-of-two test of the division branch of `_emit_expr`:
`is_const and const_val > 0 and (const_val & (const_val - 1)) == 0`. -/
def isPow2Int (v : Int) : Bool :=
  0 < v && (v.toNat &&& (v.toNat - 1)) == 0

/-- The `while tmp > 1: shift += 1; tmp >>= 1` loop of the division branch
computes the floor base-2 logarithm, which is `Nat.log2`. -/
def divShiftAmount (v : Int) : Nat :=
  Nat.log2 v.toNat

/-- The `asr.l` sequence emitted for division by the power of two `cv`
(single immediate shift for counts up to 8, otherwise chunks of 8). -/
def asrDivCode (cv : Int) (regLeft : String) : List String :=
  let s := divShiftAmount cv
  if s ≤ 8 then
    ["    asr.l #" ++ toString s ++ "," ++ regLeft ++ "  ; divide by " ++ toString cv]
  else
    List.replicate (s / 8) ("    asr.l #8," ++ regLeft) ++
      (if s % 8 ≠ 0 then ["    asr.l #" ++ toString (s % 8) ++ "," ++ regLeft] else [])

/-- `right_is_complex`: on the fragment, of the classes
`(BinOp, UnaryOp, Call, ArrayAccess)` only `BinOp` occurs. -/
def isBinopExpr : Expr → Bool
  | .binop _ _ _ => true
  | _ => false

/-- The load emitted for a `VarRef` resolved to a local (sized move with
sign- or zero-extension chosen from the declared type). -/
def emitLocalLoad (vtype : Option String) (offset : Nat) (regLeft frameReg : String) :
    List String :=
  let size := match vtype with | some t => typeSize t | none => 4
  if size = 1 then
    ["    move.b " ++ frameOffset offset frameReg ++ "," ++ regLeft] ++
      (match vtype with
       | some t =>
           if isSigned t then ["    ext.w " ++ regLeft, "    ext.l " ++ regLeft]
           else ["    andi.l #$FF," ++ regLeft]
       | none => ["    andi.l #$FF," ++ regLeft])
  else if size = 2 then
    ["    move.w " ++ frameOffset offset frameReg ++ "," ++ regLeft] ++
      (match vtype with
       | some t =>
           if isSigned t then ["    ext.l " ++ regLeft]
           else ["    andi.l #$FFFF," ++ regLeft]
       | none => ["    andi.l #$FFFF," ++ regLeft])
  else
    ["    move.l " ++ frameOffset offset frameReg ++ "," ++ regLeft]

/-- The `VarRef` case of `_emit_expr`: constants inline as immediates, then
locals, then parameters (register or stack), then globals, with the
diagnostic fallback of the source. -/
def emitVarRef (ctx : Ctx) (params : List Param) (locals : List LocalInfo)
    (name : String) (regLeft frameReg : String) : List String :=
  match lookupConst ctx.constants name with
  | some v => ["    move.l #" ++ toString v ++ "," ++ regLeft]
  | none =>
      match lookupLocal locals name with
      | some (_, vtype, offset) => emitLocalLoad vtype offset regLeft frameReg
      | none =>
          match lookupParam params name with
          | some p =>
              match paramReg p with
              | some reg =>
                  if reg ≠ regLeft then ["    move.l " ++ reg ++ "," ++ regLeft] else []
              | none =>
                  let sps := stackParams params
                  if p ∈ sps then
                    ["    move.l " ++ toString (8 + 4 * sps.indexOf p) ++ "(a6)," ++ regLeft]
                  else
                    ["    ; parameter " ++ name ++ " not found in stack_params",
                     "    move.l #0," ++ regLeft]
          | none =>
              match lookupGlobal ctx.globals name with
              | some sz =>
                  if sz = "b" then
                    ["    move.b " ++ name ++ "," ++ regLeft, "    andi.l #$FF," ++ regLeft]
                  else if sz = "w" then
                    ["    move.w " ++ name ++ "," ++ regLeft, "    andi.l #$FFFF," ++ regLeft]
                  else
                    ["    move.l " ++ name ++ "," ++ regLeft]
              | none =>
                  ["    ; unknown var " ++ name, "    move.l #0," ++ regLeft]

/-- `CodeGen._emit_expr` on the fragment.  The structure follows the source:
whole-expression constant folding first; evaluate the left operand into
`regLeft`; immediate fast paths for `+`/`-` with a literal right operand;
otherwise spill `regLeft` around a compound right operand, evaluate the right
operand into `regRight` (with the `d2`/`d1` temporary choice of the source),
and dispatch on the operator.  The division branch re-emits the divisor
evaluation before `divs.w` when the divisor is not a positive power-of-two
constant; `target_type` is threaded by the source but never read on this
fragment, so it is omitted. -/
def emitExpr (ctx : Ctx) (params : List Param) (locals : List LocalInfo) :
    Expr → String → String → String → List String
  | .num v, regLeft, _, _ => ["    move.l #" ++ toString v ++ "," ++ regLeft]
  | .varRef name, regLeft, _, frameReg => emitVarRef ctx params locals name regLeft frameReg
  | .binop op l r, regLeft, regRight, frameReg =>
      let fcAll := foldConstant ctx.constants (.binop op l r)
      if fcAll.1 then ["    move.l #" ++ toString fcAll.2 ++ "," ++ regLeft]
      else
          let leftCode := emitExpr ctx params locals l regLeft regRight frameReg
          match op, r with
          | .add, .num imm =>
              leftCode ++
                (if 0 ≤ imm ∧ imm ≤ 7 then
                  ["    addq.l #" ++ toString imm ++ "," ++ regLeft]
                 else ["    add.l #" ++ toString imm ++ "," ++ regLeft])
          | .sub, .num imm =>
              leftCode ++
                (if 0 ≤ imm ∧ imm ≤ 7 then
                  ["    subq.l #" ++ toString imm ++ "," ++ regLeft]
                 else ["    sub.l #" ++ toString imm ++ "," ++ regLeft])
          | _, _ =>
              let rightIsComplex := isBinopExpr r
              let pushCode :=
                if rightIsComplex then
                  ["    move.l " ++ regLeft ++ ",-(a7)  ; preserve left operand"]
                else []
              let tempRight := if regRight ≠ "d2" then "d2" else "d1"
              let rightCode := emitExpr ctx params locals r regRight tempRight frameReg
              let popCode :=
                if rightIsComplex then
                  ["    move.l (a7)+," ++ regLeft ++ "  ; restore left operand"]
                else []
              let common := leftCode ++ pushCode ++ rightCode ++ popCode
              match op with
              | .add => common ++ ["    add.l " ++ regRight ++ "," ++ regLeft]
              | .sub => common ++ ["    sub.l " ++ regRight ++ "," ++ regLeft]
              | .mul => common ++ ["    muls.w " ++ regRight ++ "," ++ regLeft]
              | .div =>
                  let fc := foldConstant ctx.constants r
                  if fc.1 && isPow2Int fc.2 then
                    common ++ asrDivCode fc.2 regLeft
                  else
                    common ++ emitExpr ctx params locals r regRight "d2" frameReg ++
                      ["    divs.w " ++ regRight ++ "," ++ regLeft]

/-! ## codegen.py : the inverted comparison branch emitter (claim C1) -/

/-- The `swap_map` of the constant-left rewrite in
`_emit_comparison_branch_inverted`. -/
def swapCmp : CmpOp → CmpOp
  | .clt => .cgt
  | .cle => .cge
  | .cgt => .clt
  | .cge => .cle
  | .ceq => .ceq
  | .cne => .cne

/-- The branch mnemonic `_emit_comparison_branch_inverted` emits for each
comparison operator (jump to the false label on the inverse condition).  The
same table appears in the constant-left path and in the generic path of the
source. -/
def invBranch : CmpOp → String
  | .ceq => "bne"
  | .cne => "beq"
  | .clt => "bge"
  | .cle => "bgt"
  | .cgt => "ble"
  | .cge => "blt"

/-- `CodeGen._emit_comparison_branch_inverted` for a simple comparison
condition `left op right`: constant-left comparisons are swapped into
immediate compares; a literal right operand uses an immediate compare;
otherwise the right operand is evaluated into `d1` and compared with
`cmp.l d1,d0`.  In every path the branch mnemonic is drawn from `invBranch`,
which never consults operand types. -/
def emitCmpBranchInverted (ctx : Ctx) (params : List Param) (locals : List LocalInfo)
    (op : CmpOp) (left right : Expr) (falseLabel frameReg : String) : List String :=
  match left with
  | .num c =>
      emitExpr ctx params locals right "d0" "d1" frameReg ++
        ["    cmp.l #" ++ toString c ++ ",d0",
         "    " ++ invBranch (swapCmp op) ++ " " ++ falseLabel]
  | _ =>
      let leftCode := emitExpr ctx params locals left "d0" "d1" frameReg
      match right with
      | .num i =>
          leftCode ++
            ["    cmp.l #" ++ toString i ++ ",d0",
             "    " ++ invBranch op ++ " " ++ falseLabel]
      | _ =>
          leftCode ++ emitExpr ctx params locals right "d1" "d2" frameReg ++
            ["    cmp.l d1,d0", "    " ++ invBranch op ++ " " ++ falseLabel]

/-! ## Claims C1, C3, C9 -/

/-- C1 (counterexample): for a procedure-local `x : u16`, the condition
`x < 0` lowered through `_emit_comparison_branch_inverted` emits the signed
branch `bge` to the false label, and no unsigned branch `blo` at all —
contradicting the claim that the inverted-branch emitter chooses unsigned
mnemonics from the operand types. -/
theorem c1_inverted_branch_u16_counterexample :
    emitCmpBranchInverted ⟨[], []⟩ [] [("x", some "u16", 2)] .clt
        (.varRef "x") (.num 0) "else1" "a6" =
      ["    move.w -2(a6),d0", "    andi.l #$FFFF,d0", "    cmp.l #0,d0",
       "    bge else1"] ∧
    "    blo else1" ∉
      emitCmpBranchInverted ⟨[], []⟩ [] [("x", some "u16", 2)] .clt
        (.varRef "x") (.num 0) "else1" "a6" := by
  decide

/-- C1 (amended): `_emit_comparison_branch_inverted` selects the branch
mnemonic from the comparison operator alone, through the fixed table
`invBranch`, independent of the operands' declared types (for any constants,
parameters and locals tables); and every mnemonic in that table is a signed
branch (`bne`/`beq`/`bge`/`bgt`/`ble`/`blt`), never an unsigned one.  Only
the generic 0/1-boolean path of `_emit_expr` consults `_is_unsigned_expr`. -/
theorem c1_inverted_branch_signed_table :
    (∀ (ctx : Ctx) (params : List Param) (locals : List LocalInfo) (op : CmpOp)
        (name : String) (c : Int) (lbl fr : String),
        emitCmpBranchInverted ctx params locals op (.varRef name) (.num c) lbl fr =
          emitExpr ctx params locals (.varRef name) "d0" "d1" fr ++
            ["    cmp.l #" ++ toString c ++ ",d0",
             "    " ++ invBranch op ++ " " ++ lbl]) ∧
    (∀ op : CmpOp,
        invBranch op = "bne" ∨ invBranch op = "beq" ∨ invBranch op = "bge" ∨
        invBranch op = "bgt" ∨ invBranch op = "ble" ∨ invBranch op = "blt") := by
  constructor
  · intro ctx params locals op name c lbl fr
    rfl
  · intro op
    cases op <;> simp [invBranch]

/-- C3 (counterexample): on the struct `{ x.w, y.l }` the validator's layout
(2-byte alignment for longs) gives size 6 with `y` at offset 2, while the
code generator's layout (4-byte alignment for longs) gives size 8 with `y`
at offset 4 — the two computations disagree. -/
theorem c3_struct_layout_counterexample :
    structLayoutVal [⟨"x", .w⟩, ⟨"y", .l⟩] =
      (6, [(⟨"x", .w⟩, 0), (⟨"y", .l⟩, 2)]) ∧
    structLayoutCG [⟨"x", .w⟩, ⟨"y", .l⟩] =
      (8, [(⟨"x", .w⟩, 0), (⟨"y", .l⟩, 4)]) ∧
    structLayoutVal [⟨"x", .w⟩, ⟨"y", .l⟩] ≠
      structLayoutCG [⟨"x", .w⟩, ⟨"y", .l⟩] := by
  decide

/-- C3 (amended): the validator's and the code generator's struct layout
computations agree (same total stride and same per-field offsets) for every
struct without long fields; byte fields are unpadded, word fields aligned
to 2, and the stride rounded up to even in both.  With long fields the two
differ: the validator aligns longs only to 2-byte boundaries while the code
generator aligns them to 4. -/
theorem c3_struct_layout_agree_without_longs (fields : List SField)
    (h : ∀ f ∈ fields, f.suffix ≠ FSuffix.l) :
    structLayoutVal fields = structLayoutCG fields :=
  structLayout_agree_go fields h 0

/-- Witness for C3: a concrete byte/word struct on which the two layout
computations coincide. -/
theorem c3_struct_layout_agree_witness :
    (∀ f ∈ ([⟨"a", .b⟩, ⟨"c", .w⟩] : List SField), f.suffix ≠ FSuffix.l) ∧
    structLayoutVal [⟨"a", .b⟩, ⟨"c", .w⟩] = structLayoutCG [⟨"a", .b⟩, ⟨"c", .w⟩] :=
  ⟨by decide, c3_struct_layout_agree_without_longs _ (by decide)⟩

/-- C9 (counterexample): the division `6 / 3` has a divisor that does not
fold to a power of two, yet the whole expression constant-folds, so the
generated code is a single immediate load — the divisor-evaluation sequence
is not emitted at all, and no `divs.w` appears. -/
theorem c9_division_fold_counterexample :
    emitExpr ⟨[], []⟩ [] [] (.binop .div (.num 6) (.num 3)) "d0" "d1" "a6" =
      ["    move.l #2,d0"] ∧
    "    divs.w d1,d0" ∉
      emitExpr ⟨[], []⟩ [] [] (.binop .div (.num 6) (.num 3)) "d0" "d1" "a6" := by
  decide

/-- C9 (amended): for every division `a / b` that does not itself fold to a
constant and whose divisor does not fold to a positive power-of-two
constant, `_emit_expr` emits the divisor-evaluation sequence twice — once as
the generic right-operand evaluation of the binary operation, and a second
time immediately before the `divs.w` instruction — with identical register
choices (`d1` target, `d2` temporary) both times. -/
theorem c9_division_emits_divisor_twice (ctx : Ctx) (params : List Param)
    (locals : List LocalInfo) (fr : String) (a b : Expr)
    (hfold : (foldConstant ctx.constants (.binop .div a b)).1 = false)
    (hpow : ((foldConstant ctx.constants b).1 &&
        isPow2Int (foldConstant ctx.constants b).2) = false) :
    emitExpr ctx params locals (.binop .div a b) "d0" "d1" fr =
      emitExpr ctx params locals a "d0" "d1" fr ++
        (if isBinopExpr b then ["    move.l d0,-(a7)  ; preserve left operand"] else []) ++
        emitExpr ctx params locals b "d1" "d2" fr ++
        (if isBinopExpr b then ["    move.l (a7)+,d0  ; restore left operand"] else []) ++
        emitExpr ctx params locals b "d1" "d2" fr ++
        ["    divs.w d1,d0"] := by
  rw [emitExpr]
  simp only [hfold, Bool.false_eq_true, if_false]
  cases b with
  | num v => simp [hpow, isBinopExpr, List.append_assoc]
  | varRef n => simp [hpow, isBinopExpr, List.append_assoc]
  | binop op l r => simp [hpow, isBinopExpr, List.append_assoc]

/-- Witness for C9: `p / 3` with unresolved `p` — the whole expression does
not fold, the divisor folds to 3 (not a power of two), and the divisor load
`move.l #3,d1` is emitted twice, directly before `divs.w`. -/
theorem c9_division_emits_divisor_twice_witness :
    (foldConstant (⟨[], []⟩ : Ctx).constants (.binop .div (.varRef "p") (.num 3))).1 = false ∧
    ((foldConstant (⟨[], []⟩ : Ctx).constants (.num 3)).1 &&
        isPow2Int (foldConstant (⟨[], []⟩ : Ctx).constants (.num 3)).2) = false ∧
    emitExpr ⟨[], []⟩ [] [] (.binop .div (.varRef "p") (.num 3)) "d0" "d1" "a6" =
      emitExpr ⟨[], []⟩ [] [] (.varRef "p") "d0" "d1" "a6" ++
        (if isBinopExpr (.num 3) then ["    move.l d0,-(a7)  ; preserve left operand"] else []) ++
        emitExpr ⟨[], []⟩ [] [] (.num 3) "d1" "d2" "a6" ++
        (if isBinopExpr (.num 3) then ["    move.l (a7)+,d0  ; restore left operand"] else []) ++
        emitExpr ⟨[], []⟩ [] [] (.num 3) "d1" "d2" "a6" ++
        ["    divs.w d1,d0"] :=
  ⟨by decide, by decide,
    c9_division_emits_divisor_twice ⟨[], []⟩ [] [] "a6" (.varRef "p") (.num 3)
      (by decide) (by decide)⟩

/-! ## peepholeopt.py : string utilities

The passes of `peepholeopt.py` pattern-match each line with `re` regular
expressions after stripping the comment
(`base = line.split(';', 1)[0].rstrip()`).  Each regular expression of the
source is transcribed below as a deterministic character-level matcher on
`List Char`; the relevant expressions contain no ambiguous backtracking
beyond the last-comma choice in `\S+,(reg)$` patterns, which is resolved
exactly as the greedy engine does. -/

/-- The ASCII part of Python's `\s` class. -/
def isPySpace (c : Char) : Bool :=
  c = ' ' || c = '\t' || c = '\n' || c = '\r' || c = '\x0b' || c = '\x0c'

/-- Python's `\w` class (ASCII part): letters, digits, underscore. -/
def isWordChar (c : Char) : Bool :=
  c.isAlphanum || c = '_'

/-- Drop the leading whitespace (`\s*`). -/
def dropSpacesL : List Char → List Char
  | [] => []
  | c :: rest => if isPySpace c then dropSpacesL rest else c :: rest

/-- Split into the leading whitespace (a captured `(\s*)` group) and the rest. -/
def splitSpacesL : List Char → List Char × List Char
  | [] => ([], [])
  | c :: rest =>
      if isPySpace c then
        let p := splitSpacesL rest
        (c :: p.1, p.2)
      else ([], c :: rest)

/-- `\s+`: at least one whitespace character, then skip the run. -/
def dropSpaces1 : List Char → Option (List Char)
  | [] => none
  | c :: rest => if isPySpace c then some (dropSpacesL rest) else none

/-- A literal fragment of a regular expression. -/
def dropLit (lit : String) (l : List Char) : Option (List Char) :=
  if lit.data.isPrefixOf l then some (l.drop lit.data.length) else none

/-- `str.rstrip()`. -/
def rstripL (l : List Char) : List Char :=
  (dropSpacesL l.reverse).reverse

/-- `str.strip()`. -/
def stripL (l : List Char) : List Char :=
  rstripL (dropSpacesL l)

/-- `line.split(';', 1)`: the part before the first `;` and, when a `;` is
present, the part after it. -/
def splitSemiL : List Char → List Char × Option (List Char)
  | [] => ([], none)
  | ';' :: rest => ([], some rest)
  | c :: rest =>
      let p := splitSemiL rest
      (c :: p.1, p.2)

/-- `base = line.split(';', 1)[0].rstrip()`. -/
def baseL (line : String) : List Char :=
  rstripL (splitSemiL line.data).1

/-- `comment = ';' + line.split(';', 1)[1] if ';' in line else ''`. -/
def commentOf (line : String) : String :=
  match (splitSemiL line.data).2 with
  | some rest => String.mk (';' :: rest)
  | none => ""

/-- Substring containment, Python's `sub in l`. -/
def containsSubL (sub : List Char) : List Char → Bool
  | [] => sub.isPrefixOf []
  | c :: rest => sub.isPrefixOf (c :: rest) || containsSubL sub rest

/-- A register token `[da]\d+` consuming a prefix of the input
(greedy digits), returning the token and the remainder. -/
def parseRegPre : List Char → Option (String × List Char)
  | c :: rest =>
      if c = 'd' || c = 'a' then
        let digits := rest.takeWhile Char.isDigit
        if digits ≠ [] then some (String.mk (c :: digits), rest.drop digits.length)
        else none
      else none
  | [] => none

/-- A register token `([da]\d+)$` that must span the whole input. -/
def parseRegEnd (l : List Char) : Option String :=
  match l with
  | c :: rest =>
      if (c = 'd' || c = 'a') && rest ≠ [] && rest.all Char.isDigit then
        some (String.mk (c :: rest))
      else none
  | [] => none

/-- `(d\d+)$` spanning the whole input. -/
def parseDRegEnd (l : List Char) : Option String :=
  match l with
  | 'd' :: rest =>
      if rest ≠ [] && rest.all Char.isDigit then some (String.mk ('d' :: rest)) else none
  | _ => none

/-- A decimal digit run `\d+` as a natural number (Python `int(...)`). -/
def parseDigits (l : List Char) : Option (Nat × List Char) :=
  let ds := l.takeWhile Char.isDigit
  if ds = [] then none
  else some (ds.foldl (fun a c => a * 10 + (c.toNat - 48)) 0, l.drop ds.length)

/-- `-?\d+` as a Python integer. -/
def parsePyInt (l : List Char) : Option (Int × List Char) :=
  match l with
  | '-' :: rest =>
      match parseDigits rest with
      | some (n, r) => some (-(n : Int), r)
      | none => none
  | _ =>
      match parseDigits l with
      | some (n, r) => some ((n : Int), r)
      | none => none

/-- Optional size suffix `(\.[bwl])?`. -/
def parseOptSuffix : List Char → Option String × List Char
  | '.' :: c :: rest =>
      if c = 'b' || c = 'w' || c = 'l' then (some (String.mk ['.', c]), rest)
      else (none, '.' :: c :: rest)
  | l => (none, l)

/-- Required size suffix `(\.[bwl])`. -/
def parseReqSuffix : List Char → Option (String × List Char)
  | '.' :: c :: rest =>
      if c = 'b' || c = 'w' || c = 'l' then some (String.mk ['.', c], rest) else none
  | _ => none

/-- Split at the last comma: the resolution of the greedy
`\S+,(reg)$` patterns (a register token never contains a comma, so only the
final comma can begin the register group). -/
def splitLastComma (l : List Char) : Option (List Char × List Char) :=
  let r := l.reverse
  let p := r.span (fun c => c ≠ ',')
  match p.2 with
  | ',' :: pre => some (pre.reverse, p.1.reverse)
  | _ => none

/-- `re.match(r"[da]\d+$", dest)`: the destination is exactly a register. -/
def isRegStr (s : String) : Bool :=
  match s.data with
  | c :: rest => (c = 'd' || c = 'a') && rest ≠ [] && rest.all Char.isDigit
  | [] => false

/-! ## peepholeopt.py : per-pass line matchers -/

/-- `r"\s*move(\.[bwl])?\s+([da]\d+),\2$"` of `_eliminate_move_self`. -/
def matchMoveSelf (base : List Char) : Bool :=
  match dropLit "move" (dropSpacesL base) with
  | none => false
  | some l1 =>
      let l2 := (parseOptSuffix l1).2
      match dropSpaces1 l2 with
      | none => false
      | some l3 =>
          match parseRegPre l3 with
          | none => false
          | some (r1, l4) =>
              match l4 with
              | ',' :: l5 => parseRegEnd l5 = some r1
              | _ => false

/-- `r"\s*move(\.[bwl])\s+d0,(\S+)$"` of `_eliminate_redundant_moves`. -/
def matchMoveD0Dest (base : List Char) : Option (String × String) :=
  match dropLit "move" (dropSpacesL base) with
  | none => none
  | some l1 =>
      match parseReqSuffix l1 with
      | none => none
      | some (suf, l2) =>
          match dropSpaces1 l2 with
          | none => none
          | some l3 =>
              match dropLit "d0," l3 with
              | none => none
              | some l4 =>
                  if l4 ≠ [] && l4.all (fun c => !isPySpace c) then
                    some (suf, String.mk l4)
                  else none

/-- `rf"\s*move{suffix}\s+{re.escape(dest)},d0$"` of
`_eliminate_redundant_moves`. -/
def matchStoreThenLoad (suf dest : String) (base : List Char) : Bool :=
  match dropLit ("move" ++ suf) (dropSpacesL base) with
  | none => false
  | some l1 =>
      match dropSpaces1 l1 with
      | none => false
      | some l2 =>
          match dropLit (dest ++ ",") l2 with
          | none => false
          | some l3 => l3 = "d0".data

/-- `r"\s*lea\s+(\S+),(a\d+)$"` of `_eliminate_redundant_lea`. -/
def matchLea (base : List Char) : Option (String × String) :=
  match dropLit "lea" (dropSpacesL base) with
  | none => none
  | some l1 =>
      match dropSpaces1 l1 with
      | none => none
      | some l2 =>
          if l2.all (fun c => !isPySpace c) then
            match splitLastComma l2 with
            | some (addr, reg) =>
                if addr ≠ [] then
                  match reg with
                  | 'a' :: ds =>
                      if ds ≠ [] && ds.all Char.isDigit then
                        some (String.mk addr, String.mk ('a' :: ds))
                      else none
                  | _ => none
                else none
            | none => none
          else none

/-- `r"\s*move(\.[bwl])\s+\S+,([da]\d+)$"` of `_eliminate_dead_stores`:
returns the size suffix and the register destination. -/
def matchMoveRegDest (base : List Char) : Option (String × String) :=
  match dropLit "move" (dropSpacesL base) with
  | none => none
  | some l1 =>
      match parseReqSuffix l1 with
      | none => none
      | some (suf, l2) =>
          match dropSpaces1 l2 with
          | none => none
          | some l3 =>
              if l3.all (fun c => !isPySpace c) then
                match splitLastComma l3 with
                | some (src, regPart) =>
                    if src ≠ [] then
                      match parseRegEnd regPart with
                      | some reg => some (suf, reg)
                      | none => none
                    else none
                | none => none
              else none

/-- `r"(\s*)add\.l\s+#(\d+),(d\d+)$"` (and the `sub.l` twin) of
`_optimize_immediate_ops`. -/
def matchOpLImm (mnemonic : String) (base : List Char) : Option (String × Nat × String) :=
  let p := splitSpacesL base
  match dropLit (mnemonic ++ ".l") p.2 with
  | none => none
  | some l1 =>
      match dropSpaces1 l1 with
      | none => none
      | some l2 =>
          match dropLit "#" l2 with
          | none => none
          | some l3 =>
              match parseDigits l3 with
              | none => none
              | some (n, l4) =>
                  match l4 with
                  | ',' :: l5 =>
                      match parseDRegEnd l5 with
                      | some reg => some (String.mk p.1, n, reg)
                      | none => none
                  | _ => none

/-- `r"(\s*)move\.l\s+#(-?\d+),(d\d+)$"` of `_optimize_immediate_ops`. -/
def matchMoveLImm (base : List Char) : Option (String × Int × String) :=
  let p := splitSpacesL base
  match dropLit "move.l" p.2 with
  | none => none
  | some l1 =>
      match dropSpaces1 l1 with
      | none => none
      | some l2 =>
          match dropLit "#" l2 with
          | none => none
          | some l3 =>
              match parsePyInt l3 with
              | none => none
              | some (n, l4) =>
                  match l4 with
                  | ',' :: l5 =>
                      match parseDRegEnd l5 with
                      | some reg => some (String.mk p.1, n, reg)
                      | none => none
                  | _ => none

/-- `r"(\s*)(moveq\s+#(-?\d+)|(move\.l\s+#(-?\d+))),\s*(d\d+)$"` of
`_fold_immediate_to_memory` (the `moveq` alternative is tried first, as the
engine does). -/
def matchImmLoad (base : List Char) : Option (String × Int × String) :=
  let p := splitSpacesL base
  let alt := fun (mn : String) =>
    match dropLit mn p.2 with
    | none => none
    | some l1 =>
        match dropSpaces1 l1 with
        | none => none
        | some l2 =>
            match dropLit "#" l2 with
            | none => none
            | some l3 => parsePyInt l3
  let afterAlt :=
    match alt "moveq" with
    | some r => some r
    | none => alt "move.l"
  match afterAlt with
  | none => none
  | some (n, l4) =>
      match l4 with
      | ',' :: l5 =>
          match parseDRegEnd (dropSpacesL l5) with
          | some reg => some (String.mk p.1, n, reg)
          | none => none
      | _ => none

/-- `rf"\s*move(\.[bwl])\s+{re.escape(reg)},\s*(\S+)$"` of
`_fold_immediate_to_memory` / `_fold_clr_to_memory`. -/
def matchStoreFrom (reg : String) (base : List Char) : Option (String × String) :=
  match dropLit "move" (dropSpacesL base) with
  | none => none
  | some l1 =>
      match parseReqSuffix l1 with
      | none => none
      | some (size, l2) =>
          match dropSpaces1 l2 with
          | none => none
          | some l3 =>
              match dropLit (reg ++ ",") l3 with
              | none => none
              | some l4 =>
                  let l5 := dropSpacesL l4
                  if l5 ≠ [] && l5.all (fun c => !isPySpace c) then
                    some (size, String.mk l5)
                  else none

/-- `r"(\s*)clr(\.[bwl])\s+(d\d+)$"` of `_fold_clr_to_memory`. -/
def matchClrSized (base : List Char) : Option (String × String) :=
  let p := splitSpacesL base
  match dropLit "clr" p.2 with
  | none => none
  | some l1 =>
      match parseReqSuffix l1 with
      | none => none
      | some (_, l2) =>
          match dropSpaces1 l2 with
          | none => none
          | some l3 =>
              match parseDRegEnd l3 with
              | some reg => some (String.mk p.1, reg)
              | none => none

/-- `r"\s*clr\.l\s+(d\d+)$"` of `_eliminate_clr_move`. -/
def matchClrL (base : List Char) : Option String :=
  match dropLit "clr.l" (dropSpacesL base) with
  | none => none
  | some l1 =>
      match dropSpaces1 l1 with
      | none => none
      | some l2 => parseDRegEnd l2

/-- `rf"\s*move(\.[bwl])?\s+\S+,{reg}$"` of `_eliminate_clr_move` (the
backreference `\1` forces the trailing register to equal `reg`). -/
def matchMoveToReg (reg : String) (base : List Char) : Bool :=
  match dropLit "move" (dropSpacesL base) with
  | none => false
  | some l1 =>
      let l2 := (parseOptSuffix l1).2
      match dropSpaces1 l2 with
      | none => false
      | some l3 =>
          let tail := ',' :: reg.data
          l3.all (fun c => !isPySpace c) && tail.isSuffixOf l3 &&
            decide (tail.length < l3.length)

/-- `r"(\s*)move(\.[bwl])\s+([da]\d+),([da]\d+)$"` of `_optimize_move_chains`. -/
def matchMoveRegReg (base : List Char) : Option (String × String × String × String) :=
  let p := splitSpacesL base
  match dropLit "move" p.2 with
  | none => none
  | some l1 =>
      match parseReqSuffix l1 with
      | none => none
      | some (size, l2) =>
          match dropSpaces1 l2 with
          | none => none
          | some l3 =>
              match parseRegPre l3 with
              | none => none
              | some (src, l4) =>
                  match l4 with
                  | ',' :: l5 =>
                      match parseRegEnd l5 with
                      | some dest => some (String.mk p.1, size, src, dest)
                      | none => none
                  | _ => none

/-- `r"\s*cmp(\.[bwl])?\s+(.+)$"` of `_eliminate_redundant_compare`:
the comparison signature is everything after the mnemonic. -/
def matchCmp (base : List Char) : Option String :=
  match dropLit "cmp" (dropSpacesL base) with
  | none => none
  | some l1 =>
      let l2 := (parseOptSuffix l1).2
      match dropSpaces1 l2 with
      | none => none
      | some l3 => if l3 ≠ [] then some (String.mk l3) else none

/-- `_is_label`: non-empty, does not start with a space, contains a colon. -/
def isLabelL (base : List Char) : Bool :=
  match base with
  | [] => false
  | c :: _ => c ≠ ' ' && base.contains ':'

/-- The branch mnemonics list of `_is_branch`. -/
def branchOps : List String :=
  ["bra", "beq", "bne", "blt", "ble", "bgt", "bge",
   "blo", "bls", "bhi", "bhs", "bcc", "bcs", "bpl", "bmi"]

/-- `_is_branch`: a branch mnemonic surrounded by a space and a space or dot,
or starting the stripped line, or an `rts`/`rte` substring. -/
def isBranchL (base : List Char) : Bool :=
  branchOps.any (fun op =>
    containsSubL (" " ++ op ++ " ").data base ||
    containsSubL (" " ++ op ++ ".").data base ||
    op.data.isPrefixOf (stripL base)) ||
  containsSubL "rts".data base || containsSubL "rte".data base

/-- The two-operand pattern `r"\s*\w+(\.\w)?\s+[^,]+,([da]\d+)"` of
`_extract_modified_regs` (a prefix match; the `[^,]+` group cannot cross the
first comma, so the destination is read right after it). -/
def matchTwoOpDest (instr : List Char) : Option String :=
  let l := dropSpacesL instr
  let w := l.takeWhile isWordChar
  if w = [] then none
  else
    let l1 := l.drop w.length
    let l2 :=
      match l1 with
      | '.' :: c :: rest => if isWordChar c then rest else l1
      | _ => l1
    match l2 with
    | c :: l3 =>
        if isPySpace c then
          let seg := l3.takeWhile (fun d => d ≠ ',')
          if seg ≠ [] then
            match l3.drop seg.length with
            | ',' :: l4 =>
                match parseRegPre l4 with
                | some (reg, _) => some reg
                | none => none
            | _ => none
          else none
        else none
    | [] => none

/-- The single-operand instructions of `_extract_modified_regs`. -/
def singleModOps : List String :=
  ["clr", "neg", "not", "addq", "subq", "asl", "asr", "lsl", "lsr", "rol", "ror"]

/-- One single-operand pattern `rf"\s*{op}(\.\w)?\s+([da]\d+)"`. -/
def matchSingleOpDest (op : String) (instr : List Char) : Option String :=
  match dropLit op (dropSpacesL instr) with
  | none => none
  | some l1 =>
      let l2 :=
        match l1 with
        | '.' :: c :: rest => if isWordChar c then rest else l1
        | _ => l1
      match dropSpaces1 l2 with
      | none => none
      | some l3 =>
          match parseRegPre l3 with
          | some (reg, _) => some reg
          | none => none

/-- `_extract_modified_regs`.  The source returns a set that always has at
most one element (the two-operand pattern returns immediately, the
single-operand loop breaks after the first hit), so it is embedded as an
`Option`. -/
def extractModifiedReg (instr : List Char) : Option String :=
  match matchTwoOpDest instr with
  | some r => some r
  | none => singleModOps.findSome? (fun op => matchSingleOpDest op instr)

/-- `r"\s*(b\w+)\s+(\w+)$"` of `_optimize_branch_to_branch`. -/
def matchCondBranch (base : List Char) : Option (String × String) :=
  match dropSpacesL base with
  | 'b' :: l1 =>
      let w := l1.takeWhile isWordChar
      if w = [] then none
      else
        match dropSpaces1 (l1.drop w.length) with
        | none => none
        | some l2 =>
            if l2 ≠ [] && l2.all isWordChar then
              some (String.mk ('b' :: w), String.mk l2)
            else none
  | _ => none

/-- `r"\s*bra\s+(\w+)$"` of `_optimize_branch_to_branch`. -/
def matchBra (base : List Char) : Option String :=
  match dropLit "bra" (dropSpacesL base) with
  | none => none
  | some l1 =>
      match dropSpaces1 l1 with
      | none => none
      | some l2 => if l2 ≠ [] && l2.all isWordChar then some (String.mk l2) else none

/-- `r"^(\w+):$"` of `_optimize_branch_to_branch`. -/
def matchLabelDef (base : List Char) : Option String :=
  let w := base.takeWhile isWordChar
  if w ≠ [] && base.drop w.length = [':'] then some (String.mk w) else none

/-- The `invert_map` of `_optimize_branch_to_branch`. -/
def invertBranch (s : String) : Option String :=
  if s = "beq" then some "bne" else if s = "bne" then some "beq"
  else if s = "blt" then some "bge" else if s = "bge" then some "blt"
  else if s = "bgt" then some "ble" else if s = "ble" then some "bgt"
  else if s = "bcs" then some "bcc" else if s = "bcc" then some "bcs"
  else if s = "bmi" then some "bpl" else if s = "bpl" then some "bmi"
  else if s = "bvs" then some "bvc" else if s = "bvc" then some "bvs"
  else none

/-- `r"(\s*)moveq\s+#(-?\d+),(d\d+)$"` of `_fold_constant_shifts`. -/
def matchMoveqImm (base : List Char) : Option (String × Int × String) :=
  let p := splitSpacesL base
  match dropLit "moveq" p.2 with
  | none => none
  | some l1 =>
      match dropSpaces1 l1 with
      | none => none
      | some l2 =>
          match dropLit "#" l2 with
          | none => none
          | some l3 =>
              match parsePyInt l3 with
              | none => none
              | some (n, l4) =>
                  match l4 with
                  | ',' :: l5 =>
                      match parseDRegEnd l5 with
                      | some reg => some (String.mk p.1, n, reg)
                      | none => none
                  | _ => none

/-- `rf"\s*lsl\.l\s+#(\d+),{re.escape(reg)}$"` of `_fold_constant_shifts`. -/
def matchLslImm (reg : String) (base : List Char) : Option Nat :=
  match dropLit "lsl.l" (dropSpacesL base) with
  | none => none
  | some l1 =>
      match dropSpaces1 l1 with
      | none => none
      | some l2 =>
          match dropLit "#" l2 with
          | none => none
          | some l3 =>
              match parseDigits l3 with
              | none => none
              | some (n, l4) => if l4 = ',' :: reg.data then some n else none

/-- `r"(\s*move(\.[bwl])?)\s+\((a\d+),0\.l\),(d\d+)$"` of
`_optimize_indexed_addressing`: returns the captured `move_instr` group
(indent, `move` and suffix together), the address register and the data
register. -/
def matchIndexedLoad (base : List Char) : Option (String × String × String) :=
  let p := splitSpacesL base
  match dropLit "move" p.2 with
  | none => none
  | some l1 =>
      let q := parseOptSuffix l1
      let moveInstr := String.mk p.1 ++ "move" ++ (q.1.getD "")
      match dropSpaces1 q.2 with
      | none => none
      | some l2 =>
          match l2 with
          | '(' :: l3 =>
              match parseRegPre l3 with
              | some (areg, l4) =>
                  if areg.data.head? = some 'a' then
                    match dropLit ",0.l)," l4 with
                    | none => none
                    | some l5 =>
                        match parseDRegEnd l5 with
                        | some dreg => some (moveInstr, areg, dreg)
                        | none => none
                  else none
              | none => none
          | _ => none

/-- `r"(\s*move(\.[bwl])?)\s+(d\d+),\((a\d+),0\.l\)$"` of
`_optimize_indexed_addressing`. -/
def matchIndexedStore (base : List Char) : Option (String × String × String) :=
  let p := splitSpacesL base
  match dropLit "move" p.2 with
  | none => none
  | some l1 =>
      let q := parseOptSuffix l1
      let moveInstr := String.mk p.1 ++ "move" ++ (q.1.getD "")
      match dropSpaces1 q.2 with
      | none => none
      | some l2 =>
          match parseRegPre l2 with
          | some (dreg, l3) =>
              if dreg.data.head? = some 'd' then
                match dropLit ",(" l3 with
                | none => none
                | some l4 =>
                    match parseRegPre l4 with
                    | some (areg, l5) =>
                        if areg.data.head? = some 'a' then
                          (if l5 = ",0.l)".data then some (moveInstr, dreg, areg) else none)
                        else none
                    | none => none
              else none
          | none => none

/-! ## peepholeopt.py : the thirteen passes -/

/-- `_eliminate_move_self`: drop `move.x reg,reg`. -/
def elimMoveSelf : List String → List String
  | [] => []
  | line :: rest =>
      if matchMoveSelf (baseL line) then elimMoveSelf rest
      else line :: elimMoveSelf rest

/-- `_eliminate_redundant_moves`: keep `move.x d0,EA`, drop a directly
following `move.x EA,d0`. -/
def elimRedundantMoves : List String → List String
  | a :: b :: rest =>
      (match matchMoveD0Dest (baseL a) with
       | some (suf, dest) =>
           if matchStoreThenLoad suf dest (baseL b) then a :: elimRedundantMoves rest
           else a :: elimRedundantMoves (b :: rest)
       | none => a :: elimRedundantMoves (b :: rest))
  | l => l

/-- The stateful walk of `_eliminate_redundant_lea` (`prev_match` carries the
groups of the previous line's `lea` match). -/
def elimRedundantLeaGo (prev : Option (String × String)) : List String → List String
  | [] => []
  | line :: rest =>
      match matchLea (baseL line) with
      | some g =>
          if prev = some g then elimRedundantLeaGo prev rest
          else line :: elimRedundantLeaGo (some g) rest
      | none => line :: elimRedundantLeaGo none rest

/-- `_eliminate_redundant_lea`. -/
def elimRedundantLea (lines : List String) : List String :=
  elimRedundantLeaGo none lines

/-- `_eliminate_dead_stores`: drop the first of two adjacent moves with the
same register destination and the same size. -/
def elimDeadStores : List String → List String
  | a :: b :: rest =>
      (match matchMoveRegDest (baseL a), matchMoveRegDest (baseL b) with
       | some (suf1, dest1), some (suf2, dest2) =>
           if dest1 = dest2 ∧ suf1 = suf2 then elimDeadStores (b :: rest)
           else a :: elimDeadStores (b :: rest)
       | _, _ => a :: elimDeadStores (b :: rest))
  | l => l

/-- The per-line rewrite of `_optimize_immediate_ops` (the three patterns
are mutually exclusive, so a match that fails its range test leaves the line
unchanged exactly as the source's fall-through does). -/
def rewriteImmLine (line : String) : String :=
  let base := baseL line
  let comment := commentOf line
  match matchOpLImm "add" base with
  | some (ind, n, reg) =>
      if 1 ≤ n ∧ n ≤ 8 then ind ++ "addq.l #" ++ toString n ++ "," ++ reg ++ comment
      else line
  | none =>
      match matchOpLImm "sub" base with
      | some (ind, n, reg) =>
          if 1 ≤ n ∧ n ≤ 8 then ind ++ "subq.l #" ++ toString n ++ "," ++ reg ++ comment
          else line
      | none =>
          match matchMoveLImm base with
          | some (ind, n, reg) =>
              if -128 ≤ n ∧ n ≤ 127 then ind ++ "moveq #" ++ toString n ++ "," ++ reg ++ comment
              else line
          | none => line

/-- `_optimize_immediate_ops`. -/
def optimizeImmediateOps (lines : List String) : List String :=
  lines.map rewriteImmLine

/-- The adjacent case of `_fold_immediate_to_memory`. -/
def foldImmAdj (a b : String) : Option String :=
  match matchImmLoad (baseL a) with
  | some (ind, v, reg) =>
      (match matchStoreFrom reg (baseL b) with
       | some (size, dest) =>
           if isRegStr dest then none
           else some (ind ++ "move" ++ size ++ " #" ++ toString v ++ "," ++ dest ++ commentOf b)
       | none => none)
  | none => none

/-- The one-gap case of `_fold_immediate_to_memory`: the middle line must be
neither a label nor a branch and must not modify the loaded register; note
that the source drops the middle line together with the load. -/
def foldImmGap (a b c : String) : Option String :=
  match matchImmLoad (baseL a) with
  | some (ind, v, reg) =>
      let mid := baseL b
      if isLabelL mid || isBranchL mid then none
      else if extractModifiedReg mid = some reg then none
      else
        match matchStoreFrom reg (baseL c) with
        | some (size, dest) =>
            if isRegStr dest then none
            else some (ind ++ "move" ++ size ++ " #" ++ toString v ++ "," ++ dest ++ commentOf c)
        | none => none
  | none => none

/-- `_fold_immediate_to_memory`. -/
def foldImmToMemory : List String → List String
  | a :: b :: rest =>
      (match foldImmAdj a b with
       | some newLine => newLine :: foldImmToMemory rest
       | none =>
           match rest with
           | c :: rest2 =>
               (match foldImmGap a b c with
                | some newLine => newLine :: foldImmToMemory rest2
                | none => a :: foldImmToMemory (b :: c :: rest2))
           | [] => a :: foldImmToMemory [b])
  | l => l

/-- The adjacent case of `_fold_clr_to_memory`. -/
def foldClrAdj (a b : String) : Option String :=
  match matchClrSized (baseL a) with
  | some (ind, reg) =>
      (match matchStoreFrom reg (baseL b) with
       | some (size, dest) =>
           if isRegStr dest then none
           else some (ind ++ "move" ++ size ++ " #0," ++ dest ++ commentOf b)
       | none => none)
  | none => none

/-- The one-gap case of `_fold_clr_to_memory` (the middle line is dropped,
as in the source). -/
def foldClrGap (a b c : String) : Option String :=
  match matchClrSized (baseL a) with
  | some (ind, reg) =>
      let mid := baseL b
      if isLabelL mid || isBranchL mid then none
      else if extractModifiedReg mid = some reg then none
      else
        match matchStoreFrom reg (baseL c) with
        | some (size, dest) =>
            if isRegStr dest then none
            else some (ind ++ "move" ++ size ++ " #0," ++ dest ++ commentOf c)
        | none => none
  | none => none

/-- `_fold_clr_to_memory`. -/
def foldClrToMemory : List String → List String
  | a :: b :: rest =>
      (match foldClrAdj a b with
       | some newLine => newLine :: foldClrToMemory rest
       | none =>
           match rest with
           | c :: rest2 =>
               (match foldClrGap a b c with
                | some newLine => newLine :: foldClrToMemory rest2
                | none => a :: foldClrToMemory (b :: c :: rest2))
           | [] => a :: foldClrToMemory [b])
  | l => l

/-- `_eliminate_clr_move`: drop `clr.l dN` when the next line moves into
`dN`. -/
def elimClrMove : List String → List String
  | a :: b :: rest =>
      (match matchClrL (baseL a) with
       | some reg =>
           if matchMoveToReg reg (baseL b) then elimClrMove (b :: rest)
           else a :: elimClrMove (b :: rest)
       | none => a :: elimClrMove (b :: rest))
  | l => l

/-- `_optimize_move_chains`: `move.x rA,rB; move.x rB,rC` forwards the
original source into the second move (whose comment the source drops). -/
def optimizeMoveChains : List String → List String
  | a :: b :: rest =>
      (match matchMoveRegReg (baseL a), matchMoveRegReg (baseL b) with
       | some (_, size1, src1, dest1), some (ind2, size2, src2, dest2) =>
           if src2 = dest1 ∧ size1 = size2 then
             a :: (ind2 ++ "move" ++ size2 ++ " " ++ src1 ++ "," ++ dest2) ::
               optimizeMoveChains rest
           else a :: optimizeMoveChains (b :: rest)
       | _, _ => a :: optimizeMoveChains (b :: rest))
  | l => l

/-- The `last_cmp` reset of `_eliminate_redundant_compare` on a non-compare
line: the tracked signature is dropped when the line modifies a register
that occurs (as a substring, per the source's `reg in last_cmp`) in it. -/
def nextCmpAfter (lastCmp : Option String) (base : List Char) : Option String :=
  match lastCmp with
  | some sig =>
      (match extractModifiedReg base with
       | some reg => if containsSubL reg.data sig.data then none else some sig
       | none => some sig)
  | none => none

/-- The stateful walk of `_eliminate_redundant_compare` (`last_cmp` holds the
signature of the last comparison in the current basic block). -/
def elimRedundantCompareGo (lastCmp : Option String) : List String → List String
  | [] => []
  | line :: rest =>
      if isLabelL (baseL line) || isBranchL (baseL line) then
        line :: elimRedundantCompareGo none rest
      else
        match matchCmp (baseL line) with
        | some sig =>
            if some sig = lastCmp then elimRedundantCompareGo lastCmp rest
            else line :: elimRedundantCompareGo (some sig) rest
        | none => line :: elimRedundantCompareGo (nextCmpAfter lastCmp (baseL line)) rest

/-- `_eliminate_redundant_compare`. -/
def elimRedundantCompare (lines : List String) : List String :=
  elimRedundantCompareGo none lines

/-- The ` ; `-prefixed comment the branch-to-branch rule re-attaches
(`" ; " + lines[i].split(';', 1)[1].strip()`). -/
def commentTail (line : String) : String :=
  match (splitSemiL line.data).2 with
  | some rest => " ; " ++ String.mk (stripL rest)
  | none => ""

/-- `_optimize_branch_to_branch`: `b<cc> L1; bra L2; L1:` becomes
`b<inv cc> L2; L1:`. -/
def optimizeBranchToBranch : List String → List String
  | a :: b :: c :: rest =>
      (match matchCondBranch (baseL a), matchBra (baseL b), matchLabelDef (baseL c) with
       | some (cond, lbl1), some lbl2, some actual =>
           if lbl1 = actual then
             match invertBranch cond with
             | some inv =>
                 ("    " ++ inv ++ " " ++ lbl2 ++ commentTail a) :: c ::
                   optimizeBranchToBranch rest
             | none => a :: optimizeBranchToBranch (b :: c :: rest)
           else a :: optimizeBranchToBranch (b :: c :: rest)
       | _, _, _ => a :: optimizeBranchToBranch (b :: c :: rest))
  | l => l

/-- `_fold_constant_shifts`: `moveq #N,dX; lsl.l #M,dX` becomes a single
load of `N << M` (Python's shift on arbitrary integers, i.e. `N * 2^M`). -/
def foldConstantShifts : List String → List String
  | a :: b :: rest =>
      (match matchMoveqImm (baseL a) with
       | some (ind, v, reg) =>
           (match matchLslImm reg (baseL b) with
            | some shift =>
                let result := v * (2 ^ shift : Nat)
                (if -128 ≤ result ∧ result ≤ 127 then
                   ind ++ "moveq #" ++ toString result ++ "," ++ reg ++ commentOf b
                 else
                   ind ++ "move.l #" ++ toString result ++ "," ++ reg ++ commentOf b) ::
                  foldConstantShifts rest
            | none => a :: foldConstantShifts (b :: rest))
       | none => a :: foldConstantShifts (b :: rest))
  | l => l

/-- The per-line rewrite of `_optimize_indexed_addressing`. -/
def rewriteIndexedLine (line : String) : String :=
  let base := baseL line
  let comment := commentOf line
  match matchIndexedLoad base with
  | some (moveInstr, areg, dreg) => moveInstr ++ " (" ++ areg ++ ")," ++ dreg ++ comment
  | none =>
      match matchIndexedStore base with
      | some (moveInstr, dreg, areg) => moveInstr ++ " " ++ dreg ++ ",(" ++ areg ++ ")" ++ comment
      | none => line

/-- `_optimize_indexed_addressing`. -/
def optimizeIndexedAddressing (lines : List String) : List String :=
  lines.map rewriteIndexedLine

/-- One round of `peephole_optimize`: the thirteen passes in source order. -/
def onePeepholeRound (lines : List String) : List String :=
  optimizeIndexedAddressing
    (foldConstantShifts
      (optimizeBranchToBranch
        (elimRedundantCompare
          (optimizeMoveChains
            (elimClrMove
              (foldClrToMemory
                (foldImmToMemory
                  (optimizeImmediateOps
                    (elimDeadStores
                      (elimRedundantLea
                        (elimRedundantMoves
                          (elimMoveSelf lines))))))))))))

/-- The driver loop of `peephole_optimize`: up to `max_passes = 5` rounds,
stopping as soon as a round does not shrink the line count. -/
def peepholeLoop : Nat → List String → List String
  | 0, acc => acc
  | n + 1, acc =>
      let next := onePeepholeRound acc
      if next.length < acc.length then peepholeLoop n next else next

/-- `peephole_optimize`. -/
def peepholeOptimize (lines : List String) : List String :=
  peepholeLoop 5 lines

/-! ## Peephole length bounds

Each pass emits at most as many lines as it consumes, so the whole optimizer
never lengthens its input. -/

theorem elimMoveSelf_len (l : List String) : (elimMoveSelf l).length ≤ l.length := by
  induction l with
  | nil => simp [elimMoveSelf]
  | cons a rest ih =>
      rw [elimMoveSelf]
      split <;> simp <;> omega

theorem elimRedundantMoves_len (l : List String) :
    (elimRedundantMoves l).length ≤ l.length := by
  induction l using elimRedundantMoves.induct with
  | case1 a b rest suf dest h1 h2 ih => rw [elimRedundantMoves]; simp_all; omega
  | case2 a b rest suf dest h1 h2 ih => rw [elimRedundantMoves]; simp_all
  | case3 a b rest h1 ih => rw [elimRedundantMoves]; simp_all
  | case4 l h =>
      cases l with
      | nil => simp [elimRedundantMoves]
      | cons x xs =>
          cases xs with
          | nil => simp [elimRedundantMoves]
          | cons y ys => exact absurd rfl (h x y ys)

theorem elimRedundantLeaGo_len (prev : Option (String × String)) (l : List String) :
    (elimRedundantLeaGo prev l).length ≤ l.length := by
  induction prev, l using elimRedundantLeaGo.induct with
  | case1 prev => simp [elimRedundantLeaGo]
  | case2 line rest g h ih => rw [elimRedundantLeaGo]; simp_all; omega
  | case3 prev line rest g h hne ih =>
      rw [elimRedundantLeaGo]
      simp only [h]
      rw [if_neg hne]
      simp_all
  | case4 prev line rest h ih => rw [elimRedundantLeaGo]; simp_all

theorem elimDeadStores_len (l : List String) : (elimDeadStores l).length ≤ l.length := by
  induction l using elimDeadStores.induct with
  | case1 a b rest suf1 dest1 suf2 dest2 hb ha hand ih =>
      rw [elimDeadStores]; simp_all; omega
  | case2 a b rest suf1 dest1 suf2 dest2 hb ha hand ih =>
      rw [elimDeadStores]
      simp only [ha, hb]
      rw [if_neg hand]
      simp_all
  | case3 a b rest h ih =>
      rw [elimDeadStores]
      rcases hma : matchMoveRegDest (baseL a) with _ | ⟨suf1, dest1⟩
      · simp_all
      · rcases hmb : matchMoveRegDest (baseL b) with _ | ⟨suf2, dest2⟩
        · simp_all
        · exact (h suf1 dest1 suf2 dest2 hma hmb).elim
  | case4 l h =>
      cases l with
      | nil => simp [elimDeadStores]
      | cons x xs =>
          cases xs with
          | nil => simp [elimDeadStores]
          | cons y ys => exact absurd rfl (h x y ys)

theorem foldImmToMemory_len (l : List String) : (foldImmToMemory l).length ≤ l.length := by
  induction l using foldImmToMemory.induct with
  | case1 a b rest t h ih =>
      cases rest with
      | nil => rw [foldImmToMemory.eq_2]; simp_all
      | cons c rest2 => rw [foldImmToMemory.eq_1]; simp_all; omega
  | case2 a b h1 c rest2 t h2 ih => rw [foldImmToMemory.eq_1]; simp_all; omega
  | case3 a b h1 c rest2 h2 ih => rw [foldImmToMemory.eq_1]; simp_all
  | case4 a b h1 ih => rw [foldImmToMemory.eq_2]; simp_all
  | case5 l h =>
      cases l with
      | nil => simp [foldImmToMemory]
      | cons x xs =>
          cases xs with
          | nil => simp [foldImmToMemory]
          | cons y ys => exact absurd rfl (h x y ys)

theorem foldClrToMemory_len (l : List String) : (foldClrToMemory l).length ≤ l.length := by
  induction l using foldClrToMemory.induct with
  | case1 a b rest t h ih =>
      cases rest with
      | nil => rw [foldClrToMemory.eq_2]; simp_all
      | cons c rest2 => rw [foldClrToMemory.eq_1]; simp_all; omega
  | case2 a b h1 c rest2 t h2 ih => rw [foldClrToMemory.eq_1]; simp_all; omega
  | case3 a b h1 c rest2 h2 ih => rw [foldClrToMemory.eq_1]; simp_all
  | case4 a b h1 ih => rw [foldClrToMemory.eq_2]; simp_all
  | case5 l h =>
      cases l with
      | nil => simp [foldClrToMemory]
      | cons x xs =>
          cases xs with
          | nil => simp [foldClrToMemory]
          | cons y ys => exact absurd rfl (h x y ys)

theorem elimClrMove_len (l : List String) : (elimClrMove l).length ≤ l.length := by
  induction l using elimClrMove.induct with
  | case1 a b rest t h1 h2 ih => rw [elimClrMove]; simp_all; omega
  | case2 a b rest t h1 h2 ih => rw [elimClrMove]; simp_all
  | case3 a b rest h ih => rw [elimClrMove]; simp_all
  | case4 l h =>
      cases l with
      | nil => simp [elimClrMove]
      | cons x xs =>
          cases xs with
          | nil => simp [elimClrMove]
          | cons y ys => exact absurd rfl (h x y ys)

theorem optimizeMoveChains_len (l : List String) :
    (optimizeMoveChains l).length ≤ l.length := by
  induction l using optimizeMoveChains.induct with
  | case1 a b rest f1 s1 sr1 d1 i2 s2 sr2 d2 hb ha hand ih =>
      rw [optimizeMoveChains]; simp_all
  | case2 a b rest f1 s1 sr1 d1 i2 s2 sr2 d2 hb ha hand ih =>
      rw [optimizeMoveChains]
      simp only [ha, hb]
      rw [if_neg hand]
      simp_all
  | case3 a b rest h ih =>
      rw [optimizeMoveChains]
      rcases hma : matchMoveRegReg (baseL a) with _ | ⟨f1, s1, sr1, d1⟩
      · simp_all
      · rcases hmb : matchMoveRegReg (baseL b) with _ | ⟨i2, s2, sr2, d2⟩
        · simp_all
        · exact (h f1 s1 sr1 d1 i2 s2 sr2 d2 hma hmb).elim
  | case4 l h =>
      cases l with
      | nil => simp [optimizeMoveChains]
      | cons x xs =>
          cases xs with
          | nil => simp [optimizeMoveChains]
          | cons y ys => exact absurd rfl (h x y ys)

theorem elimRedundantCompareGo_len (lastCmp : Option String) (l : List String) :
    (elimRedundantCompareGo lastCmp l).length ≤ l.length := by
  induction lastCmp, l using elimRedundantCompareGo.induct with
  | case1 lastCmp => simp [elimRedundantCompareGo]
  | case2 lastCmp line rest h ih => rw [elimRedundantCompareGo]; simp_all
  | case3 line rest h t hm ih => rw [elimRedundantCompareGo]; simp_all; omega
  | case4 lastCmp line rest h t hm hne ih =>
      rw [elimRedundantCompareGo]
      simp only [h, hm]
      rw [if_neg hne]
      simp_all
  | case5 lastCmp line rest h hm ih => rw [elimRedundantCompareGo]; simp_all

theorem optimizeBranchToBranch_len (l : List String) :
    (optimizeBranchToBranch l).length ≤ l.length := by
  induction l using optimizeBranchToBranch.induct with
  | case1 a b c rest cond lbl2 actual hc hb t hinv ha ih =>
      rw [optimizeBranchToBranch]; simp_all; omega
  | case2 a b c rest cond lbl2 actual hc hb hinv ha ih =>
      rw [optimizeBranchToBranch]; simp_all
  | case3 a b c rest cond lbl1 lbl2 actual hc hb ha hne ih =>
      rw [optimizeBranchToBranch]
      simp only [ha, hb, hc]
      rw [if_neg hne]
      simp_all
  | case4 a b c rest h ih =>
      rw [optimizeBranchToBranch]
      rcases hma : matchCondBranch (baseL a) with _ | ⟨cond, lbl1⟩
      · simp_all
      · rcases hmb : matchBra (baseL b) with _ | lbl2
        · simp_all
        · rcases hmc : matchLabelDef (baseL c) with _ | actual
          · simp_all
          · exact (h cond lbl1 lbl2 actual hma hmb hmc).elim
  | case5 l h =>
      match l with
      | [] => simp [optimizeBranchToBranch]
      | [x] => simp [optimizeBranchToBranch]
      | [x, y] => simp [optimizeBranchToBranch]
      | x :: y :: z :: zs => exact absurd rfl (h x y z zs)

theorem foldConstantShifts_len (l : List String) :
    (foldConstantShifts l).length ≤ l.length := by
  induction l using foldConstantShifts.induct with
  | case1 a b rest ind n reg h1 shift h2 ih => rw [foldConstantShifts]; simp_all; omega
  | case2 a b rest ind n reg h1 h2 ih => rw [foldConstantShifts]; simp_all
  | case3 a b rest h ih => rw [foldConstantShifts]; simp_all
  | case4 l h =>
      cases l with
      | nil => simp [foldConstantShifts]
      | cons x xs =>
          cases xs with
          | nil => simp [foldConstantShifts]
          | cons y ys => exact absurd rfl (h x y ys)

theorem onePeepholeRound_len (l : List String) :
    (onePeepholeRound l).length ≤ l.length := by
  unfold onePeepholeRound
  unfold elimRedundantLea elimRedundantCompare optimizeImmediateOps optimizeIndexedAddressing
  calc _ ≤ _ := by
        refine le_trans (by rw [List.length_map]) ?_
        refine le_trans (foldConstantShifts_len _) ?_
        refine le_trans (optimizeBranchToBranch_len _) ?_
        refine le_trans (elimRedundantCompareGo_len none _) ?_
        refine le_trans (optimizeMoveChains_len _) ?_
        refine le_trans (elimClrMove_len _) ?_
        refine le_trans (foldClrToMemory_len _) ?_
        refine le_trans (foldImmToMemory_len _) ?_
        refine le_trans (le_of_eq (List.length_map _ _)) ?_
        refine le_trans (elimDeadStores_len _) ?_
        refine le_trans (elimRedundantLeaGo_len none _) ?_
        refine le_trans (elimRedundantMoves_len _) ?_
        exact elimMoveSelf_len l

theorem peepholeLoop_len (n : Nat) (l : List String) :
    (peepholeLoop n l).length ≤ l.length := by
  induction n generalizing l with
  | zero => simp [peepholeLoop]
  | succ n ih =>
      rw [peepholeLoop]
      split
      · exact le_trans (ih _) (le_of_lt (by assumption))
      · exact onePeepholeRound_len l

/-! ## Claims C2 and C4 -/

/-- C2 (evaluation at the failing input): `_eliminate_dead_stores` removes
`move.l #tab,a0` although the very next instruction `move.l (a0),a0` reads
`a0` (as the source of its indirect load) before overwriting it, and the
full `peephole_optimize` driver does the same — contradicting both the
claim and the pass's own docstring (a store may only be removed when the
register is overwritten before being used). -/
theorem c2_dead_store_removes_read_register :
    elimDeadStores ["    move.l #tab,a0", "    move.l (a0),a0"] =
      ["    move.l (a0),a0"] ∧
    peepholeOptimize ["    move.l #tab,a0", "    move.l (a0),a0"] =
      ["    move.l (a0),a0"] := by
  constructor
  · rfl
  · rfl

/-- C4 (counterexample to idempotence): on the move chain
`d0→d1; d1→d2; d2→d3` one run of `peephole_optimize` rewrites only the
second move (the pass has already walked past the pair it just created and
no shrinkage occurs, so the driver stops), and a second run rewrites the
third move — the optimizer is not idempotent. -/
theorem c4_peephole_not_idempotent :
    peepholeOptimize ["    move.l d0,d1", "    move.l d1,d2", "    move.l d2,d3"] =
      ["    move.l d0,d1", "    move.l d0,d2", "    move.l d2,d3"] ∧
    peepholeOptimize
        (peepholeOptimize ["    move.l d0,d1", "    move.l d1,d2", "    move.l d2,d3"]) =
      ["    move.l d0,d1", "    move.l d0,d2", "    move.l d0,d3"] ∧
    peepholeOptimize
        (peepholeOptimize ["    move.l d0,d1", "    move.l d1,d2", "    move.l d2,d3"]) ≠
      peepholeOptimize ["    move.l d0,d1", "    move.l d1,d2", "    move.l d2,d3"] := by
  have e1 : peepholeOptimize ["    move.l d0,d1", "    move.l d1,d2", "    move.l d2,d3"] =
      ["    move.l d0,d1", "    move.l d0,d2", "    move.l d2,d3"] := by rfl
  have e2 : peepholeOptimize ["    move.l d0,d1", "    move.l d0,d2", "    move.l d2,d3"] =
      ["    move.l d0,d1", "    move.l d0,d2", "    move.l d0,d3"] := by rfl
  refine ⟨e1, ?_, ?_⟩
  · rw [e1]
    exact e2
  · rw [e1, e2]
    decide

/-- C4 (amended): the peephole optimizer never lengthens the program —
`len(peephole_optimize(L)) ≤ len(L)` for every list of lines; idempotence,
however, does not hold in general (see the counterexample). -/
theorem c4_peephole_non_lengthening (l : List String) :
    (peepholeOptimize l).length ≤ l.length :=
  peepholeLoop_len 5 l

/-! ## codegen.py : statement lowering

The statement fragment covers the `_emit_stmt` branches the claims name:
`VarDecl`, `CompoundAssign`, `RepeatLoop` and `Return`.  The code generator's
mutable collector state (line buffer, label counter, loop-label stack) is
threaded explicitly as `CG`. -/

/-- Statement fragment of the AST. -/
inductive Stmt
  | varDecl (name : String) (vtype : Option String) (initExpr : Option Expr)
  | compoundAssign (target : String) (op : String) (expr : Expr)
  | repeatLoop (count : Expr) (body : List Stmt)
  | ret (expr : Expr)
deriving Repr

/-- The mutable collector state of `CodeGen`: emitted lines (append-only),
the monotonic label counter, and the per-procedure loop-label stack. -/
structure CG where
  lines : List String
  labelCounter : Nat
  loopStack : List (String × String)
deriving Repr, DecidableEq

/-- `self.emit(s)`. -/
def emitLine (cg : CG) (s : String) : CG :=
  { cg with lines := cg.lines ++ [s] }

/-- `self.emit` over a list of lines. -/
def emitAll (cg : CG) (ls : List String) : CG :=
  { cg with lines := cg.lines ++ ls }

/-- `CodeGen._next_label`: increment the counter, then produce
`f"{prefix}{counter}"`. -/
def nextLabel (cg : CG) (pre : String) : String × CG :=
  (pre ++ toString (cg.labelCounter + 1), { cg with labelCounter := cg.labelCounter + 1 })

/-- Python `s.startswith(pre)` (stated on the underlying character lists so
that it evaluates inside the kernel). -/
def pyStartswith (s pre : String) : Bool :=
  pre.data.isPrefixOf s.data

/-- The re-indentation `_emit_stmt` applies to expression code
(`sub if sub.startswith(indent) else indent + sub`; the lines of the fragment
contain no embedded newlines, so `splitlines` is the identity). -/
def reindentLines (indent : String) (code : List String) : List String :=
  code.map (fun sub => if pyStartswith sub indent then sub else indent ++ sub)

/-- A single quote character, used by the Python `repr` of strings. -/
def sq : String :=
  String.mk [Char.ofNat 39]

/-- The operator spelling of the fragment's `ast.BinOp.op` strings. -/
def bopStr : BOp → String
  | .add => "+"
  | .sub => "-"
  | .mul => "*"
  | .div => "/"

/-- `codegen_utils.expr_to_comment`: the AST nodes define no `to_source`, so
the source falls back to the dataclass `repr` with runs of whitespace
collapsed; on this fragment the reprs are already single-spaced, so the
collapse is the identity. -/
def exprToComment : Expr → String
  | .num v => "Number(value=" ++ toString v ++ ")"
  | .varRef n => "VarRef(name=" ++ sq ++ n ++ sq ++ ")"
  | .binop op l r =>
      "BinOp(op=" ++ sq ++ bopStr op ++ sq ++ ", left=" ++ exprToComment l ++
        ", right=" ++ exprToComment r ++ ")"

/-- The `op_map` lookup `op_map.get(stmt.op, 'add')` of the `CompoundAssign`
branch, for the string-valued entries.  The `'/='` key maps, in the source,
to a *list*, and the subsequent `indent + instr` concatenation raises
`TypeError`; that crash path is not modelled (no claim exercises it). -/
def compoundOpInstr (op : String) : String :=
  if op = "+=" then "add"
  else if op = "-=" then "sub"
  else if op = "*=" then "muls"
  else if op = "%=" then "; mod not implemented"
  else if op = "&=" then "and"
  else if op = "|=" then "or"
  else if op = "^=" then "eor"
  else "add"

/-- `(offset + 3) & ~3` on natural numbers. -/
def alignDown4 (n : Nat) : Nat :=
  4 * (n / 4)

/-- The `offset = max(offset, off)` fold of the epilogue's frame-size
recomputation. -/
def maxOffset (locals : List LocalInfo) : Nat :=
  locals.foldl (fun acc l => max acc l.2.2) 0

mutual

/-- `CodeGen._emit_stmt` on the statement fragment. -/
def emitStmt (ctx : Ctx) (params : List Param) (locals : List LocalInfo)
    (indent : String) (isVoid : Bool) (frameReg : String) (cg : CG) : Stmt → CG
  | .varDecl name _vtype initExpr =>
      match initExpr with
      | none => cg
      | some e =>
          match lookupLocal locals name with
          | some (_, vt, offset) =>
              let size := match vt with | some t => typeSize t | none => 4
              let code := emitExpr ctx params locals e "d0" "d1" frameReg
              let cg1 := emitAll cg (reindentLines indent code)
              emitLine cg1 (indent ++ "move" ++ sizeSuffix size ++ " d0," ++
                frameOffset offset frameReg)
          | none =>
              emitLine cg (indent ++ "; warning: local variable " ++ name ++
                " not found in locals_info")
  | .compoundAssign target op e =>
      let cg0 := emitLine cg (indent ++ "; " ++ target ++ " " ++ op ++ " " ++ exprToComment e)
      match lookupLocal locals target with
      | some (_, vt, offset) =>
          let size := match vt with | some t => typeSize t | none => 4
          let suffix := sizeSuffix size
          let code := emitExpr ctx params locals e "d1" "d1" frameReg
          let cg1 := emitAll cg0 (reindentLines indent code)
          let cg2 := emitLine cg1 (indent ++ "move" ++ suffix ++ " " ++
            frameOffset offset frameReg ++ ",d0")
          let instr := compoundOpInstr op
          let cg3 :=
            if containsSubL "/=".data op.data then cg2
            else if containsSubL "%=".data op.data then emitLine cg2 (indent ++ instr)
            else emitLine cg2 (indent ++ instr ++ suffix ++ " d1,d0")
          emitLine cg3 (indent ++ "move" ++ suffix ++ " d0," ++ frameOffset offset frameReg)
      | none =>
          emitLine cg0 (indent ++ "; compound assign to unknown target " ++ target)
  | .repeatLoop count body =>
      let p1 := nextLabel cg "repeat"
      let p2 := nextLabel p1.2 "endrepeat"
      let p3 := nextLabel p2.2 "repeatcont"
      let startLabel := p1.1
      let endLabel := p2.1
      let contLabel := p3.1
      let cgA := { p3.2 with loopStack := p3.2.loopStack ++ [(contLabel, endLabel)] }
      let code := emitExpr ctx params locals count "d0" "d1" frameReg
      let cgB := emitAll cgA (reindentLines indent code)
      let cgC := emitAll cgB
        [indent ++ "subq.l #1,d0", indent ++ "move.l d0,d7", startLabel ++ ":"]
      let cgD := emitStmts ctx params locals indent isVoid frameReg cgC body
      let cgE := emitAll cgD
        [contLabel ++ ":", indent ++ "dbra d7," ++ startLabel, endLabel ++ ":"]
      { cgE with loopStack := cgE.loopStack.dropLast }
  | .ret e =>
      let cg1 :=
        if isVoid then cg
        else emitAll cg (reindentLines indent (emitExpr ctx params locals e "d0" "d1" frameReg))
      let cg2 :=
        if locals.length > 0 ∧ frameReg = "a4" then
          emitLine cg1 (indent ++ "move.l -" ++
            toString (alignDown4 (maxOffset locals + 3) + 4) ++
            "(a6),a4  ; restore a4 from frame")
        else cg1
      emitLine (emitLine cg2 (indent ++ "unlk a6")) (indent ++ "rts")

/-- `_emit_stmt` folded over a statement list. -/
def emitStmts (ctx : Ctx) (params : List Param) (locals : List LocalInfo)
    (indent : String) (isVoid : Bool) (frameReg : String) (cg : CG) : List Stmt → CG
  | [] => cg
  | s :: rest =>
      emitStmts ctx params locals indent isVoid frameReg
        (emitStmt ctx params locals indent isVoid frameReg cg s) rest

end

/-! ## Emission monotonicity

`_emit_stmt` only appends to the line buffer; this is used to expose the
shape of the `repeat` lowering. -/

theorem lines_emitLine (cg : CG) (s : String) : (emitLine cg s).lines = cg.lines ++ [s] := rfl

theorem lines_emitAll (cg : CG) (L : List String) : (emitAll cg L).lines = cg.lines ++ L := rfl

theorem prefix_emitLine (l : List String) (cg : CG) (s : String) (h : l <+: cg.lines) :
    l <+: (emitLine cg s).lines := by
  rw [lines_emitLine]; exact h.trans (List.prefix_append _ _)

theorem prefix_emitAll (l : List String) (cg : CG) (L : List String) (h : l <+: cg.lines) :
    l <+: (emitAll cg L).lines := by
  rw [lines_emitAll]; exact h.trans (List.prefix_append _ _)

theorem emitStmtGrowsLines (ctx : Ctx) (params : List Param) (locals : List LocalInfo)
    (indent : String) (isVoid : Bool) (frameReg : String) :
    ∀ (cg : CG) (s : Stmt),
      cg.lines <+: (emitStmt ctx params locals indent isVoid frameReg cg s).lines :=
  emitStmt.induct ctx params locals indent isVoid frameReg
    (fun cg s => cg.lines <+: (emitStmt ctx params locals indent isVoid frameReg cg s).lines)
    (fun cg ss => cg.lines <+: (emitStmts ctx params locals indent isVoid frameReg cg ss).lines)
    (fun cg a a1 => by dsimp only; rw [emitStmt.eq_def])
    (fun cg a a1 e fst vt snd hl => by
      dsimp only; rw [emitStmt.eq_def]
      simp only [hl]
      repeat first
        | exact List.prefix_refl _
        | apply prefix_emitLine
        | apply prefix_emitAll
        | split)
    (fun cg a a1 e hl => by
      dsimp only; rw [emitStmt.eq_def]
      simp only [hl]
      repeat first
        | exact List.prefix_refl _
        | apply prefix_emitLine
        | apply prefix_emitAll
        | split)
    (fun cg a a1 a2 fst vt snd hl => by
      dsimp only; rw [emitStmt.eq_def]
      simp only [hl]
      repeat first
        | exact List.prefix_refl _
        | apply prefix_emitLine
        | apply prefix_emitAll
        | split)
    (fun cg a a1 a2 hl => by
      dsimp only; rw [emitStmt.eq_def]
      simp only [hl]
      repeat first
        | exact List.prefix_refl _
        | apply prefix_emitLine
        | apply prefix_emitAll
        | split)
    (fun cg count body ih => by
      dsimp only; rw [emitStmt.eq_def]
      dsimp only
      refine List.IsPrefix.trans ?_ (List.IsPrefix.trans ih ?_)
      · repeat first
          | exact List.prefix_refl _
          | apply prefix_emitLine
          | apply prefix_emitAll
      · apply (List.prefix_append _ _).trans
        exact List.prefix_refl _)
    (fun cg e => by
      dsimp only; rw [emitStmt.eq_def]
      repeat first
        | exact List.prefix_refl _
        | apply prefix_emitLine
        | apply prefix_emitAll
        | split)
    (fun cg => by dsimp only; rw [emitStmts.eq_def])
    (fun cg s rest ih1 ih2 => by
      dsimp only; rw [emitStmts.eq_def]
      exact ih1.trans ih2)

theorem emitStmtsGrowsLines (ctx : Ctx) (params : List Param) (locals : List LocalInfo)
    (indent : String) (isVoid : Bool) (frameReg : String) :
    ∀ (ss : List Stmt) (cg : CG),
      cg.lines <+: (emitStmts ctx params locals indent isVoid frameReg cg ss).lines := by
  intro ss
  induction ss with
  | nil =>
      intro cg
      rw [emitStmts.eq_def]
  | cons s rest ih =>
      intro cg
      rw [emitStmts.eq_def]
      exact (emitStmtGrowsLines ctx params locals indent isVoid frameReg cg s).trans (ih _)

/-- Modelled from the spec: the trip count of the emitted `dbra` loop.  The
68000 semantics (spec §8 and the `DBRA` glossary entry) are: the counter
register d7 is set to `N-1` through 32-bit wraparound, the body runs once per
iteration, and `dbra` decrements d7's low 16-bit word, branching back until
it becomes -1 — so the loop executes (low word of `N-1`) + 1 times.  The
CPU itself is outside the repository; only this counting function is taken
from the spec's wording. -/
def repeatTripCount (n : Nat) : Nat :=
  (((n + 2 ^ 32 - 1) % 2 ^ 32) % 2 ^ 16) + 1

/-- C6: the `repeat N { body }` lowering evaluates the count into d0, emits
`subq.l #1,d0` and `move.l d0,d7` with no zero-guard between them, opens the
loop label, lowers the body, and closes it with `repeatcont:` directly
followed by `dbra d7,<loop top label>` and the end label; and the `dbra`
trip count is capped at 65,536, with `repeat 0` wrapping to 65,536
iterations and `repeat (m+1)` executing `m % 65536 + 1` iterations. -/
theorem c6_repeat_dbra_lowering :
    (∀ (ctx : Ctx) (params : List Param) (locals : List LocalInfo)
        (indent : String) (isVoid : Bool) (frameReg : String) (cg : CG)
        (count : Expr) (body : List Stmt),
      ∃ bodyLines,
        (emitStmt ctx params locals indent isVoid frameReg cg
            (.repeatLoop count body)).lines =
          cg.lines ++
            reindentLines indent (emitExpr ctx params locals count "d0" "d1" frameReg) ++
            [indent ++ "subq.l #1,d0", indent ++ "move.l d0,d7",
             "repeat" ++ toString (cg.labelCounter + 1) ++ ":"] ++
            bodyLines ++
            ["repeatcont" ++ toString (cg.labelCounter + 3) ++ ":",
             indent ++ "dbra d7,repeat" ++ toString (cg.labelCounter + 1),
             "endrepeat" ++ toString (cg.labelCounter + 2) ++ ":"]) ∧
    repeatTripCount 0 = 65536 ∧
    (∀ m, repeatTripCount m ≤ 65536) ∧
    (∀ m, repeatTripCount (m + 1) = m % 65536 + 1) := by
  refine ⟨?_, ?_, ?_, ?_⟩
  · intro ctx params locals indent isVoid frameReg cg count body
    rw [emitStmt.eq_def]
    dsimp only
    obtain ⟨t, ht⟩ := emitStmtsGrowsLines ctx params locals indent isVoid frameReg body
      { lines := (cg.lines ++
          reindentLines indent (emitExpr ctx params locals count "d0" "d1" frameReg)) ++
          [indent ++ "subq.l #1,d0", indent ++ "move.l d0,d7",
           "repeat" ++ toString (cg.labelCounter + 1) ++ ":"],
        labelCounter := cg.labelCounter + 3,
        loopStack := cg.loopStack ++
          [("repeatcont" ++ toString (cg.labelCounter + 3),
            "endrepeat" ++ toString (cg.labelCounter + 2))] }
    refine ⟨t, ?_⟩
    simp only [emitAll, emitLine, nextLabel] at ht ⊢
    rw [← ht]
    simp only [List.append_assoc, List.cons_append, List.nil_append,
      List.append_cancel_left_eq]
    have hlit : ("dbra d7," : String) ++ "repeat" = "dbra d7,repeat" := rfl
    rw [← String.append_assoc, String.append_assoc indent, hlit]
  · decide
  · intro m
    have h1 : ((m + 2 ^ 32 - 1) % 2 ^ 32) % 2 ^ 16 < 2 ^ 16 :=
      Nat.mod_lt _ (by decide)
    unfold repeatTripCount
    omega
  · intro m
    unfold repeatTripCount
    omega

/-- C10: a compound assignment whose target is not in `locals_info` (which
holds the procedure's locals and the mirrored data-register parameters) —
for example a global or extern variable — emits exactly two comment lines
(the operation header and `; compound assign to unknown target ...`), no
instructions, and leaves the label counter and loop stack unchanged; no
error is raised. -/
theorem c10_compound_assign_unknown_target (ctx : Ctx) (params : List Param)
    (locals : List LocalInfo) (indent : String) (isVoid : Bool) (frameReg : String)
    (cg : CG) (target op : String) (e : Expr)
    (h : lookupLocal locals target = none) :
    emitStmt ctx params locals indent isVoid frameReg cg (.compoundAssign target op e) =
      { cg with lines := cg.lines ++
          [indent ++ "; " ++ target ++ " " ++ op ++ " " ++ exprToComment e,
           indent ++ "; compound assign to unknown target " ++ target] } := by
  rw [emitStmt.eq_def]
  simp [h, emitLine, List.append_assoc]

/-- Witness for C10: `g += 5` with `g` not a local emits exactly the two
comments. -/
theorem c10_compound_assign_unknown_target_witness :
    lookupLocal [] "g" = none ∧
    emitStmt ⟨[], []⟩ [] [] "    " false "a6" ⟨[], 0, []⟩
        (.compoundAssign "g" "+=" (.num 5)) =
      { lines := ["    ; g += Number(value=5)",
                  "    ; compound assign to unknown target g"],
        labelCounter := 0, loopStack := [] } :=
  ⟨by decide, by
    rw [c10_compound_assign_unknown_target ⟨[], []⟩ [] [] "    " false "a6" ⟨[], 0, []⟩
      "g" "+=" (.num 5) (by decide)]
    rfl⟩

/-! ## codegen.py : procedure analysis and emission (claim C5) -/

/-- `ast.Proc` on the fragment. -/
structure Proc where
  name : String
  params : List Param
  rettype : String
  body : List Stmt
deriving Repr

/-- `f"{vtype}"` where `vtype` may be Python `None`. -/
def optStr : Option String → String
  | some t => t
  | none => "None"

/-- `any(isinstance(s, ast.Return) for s in it.body)`. -/
def isRetStmt : Stmt → Bool
  | .ret _ => true
  | _ => false

mutual

/-- One step of the `collect_locals` walk of `_analyze_proc` on the
fragment: `VarDecl` allocates a slot (size by declared type, offset aligned
to even), `RepeatLoop` recurses into its body, other statements allocate
nothing.  The state is the running offset plus the accumulated
`locals_info`. -/
def collectLocalsStmt (st : Nat × List LocalInfo) : Stmt → Nat × List LocalInfo
  | .varDecl name vtype _ =>
      let size := match vtype with | some t => typeSize t | none => 4
      let off1 := st.1 + size
      let off2 := if off1 % 2 = 1 then off1 + 1 else off1
      (off2, st.2 ++ [(name, vtype, off2)])
  | .repeatLoop _ body => collectLocalsStmts st body
  | .compoundAssign _ _ _ => st
  | .ret _ => st

/-- `collect_locals` over a statement list. -/
def collectLocalsStmts (st : Nat × List LocalInfo) : List Stmt → Nat × List LocalInfo
  | [] => st
  | s :: rest => collectLocalsStmts (collectLocalsStmt st s) rest

end

/-- The data-register-parameter slot allocation at the top of
`_analyze_proc`: each parameter pinned to a dN register gets a mirrored
stack slot (offset aligned to even) recorded both in `saved_reg_params` and
in `locals_info`. -/
def analyzeParamsGo (st : Nat × List LocalInfo × List (String × String × Nat)) :
    List Param → Nat × List LocalInfo × List (String × String × Nat)
  | [] => st
  | p :: rest =>
      match paramReg p with
      | some reg =>
          if reg.startsWith "d" then
            let size := if p.ptype ≠ "" then typeSize p.ptype else 4
            let off1 := st.1 + size
            let off2 := if off1 % 2 = 1 then off1 + 1 else off1
            analyzeParamsGo
              (off2, st.2.1 ++ [(p.name, some p.ptype, off2)],
               st.2.2 ++ [(p.name, reg, off2)]) rest
          else analyzeParamsGo st rest
      | none => analyzeParamsGo st rest

/-- `CodeGen._analyze_proc`: returns `(locals_info, total_local_size,
saved_reg_params)`; the total is the final offset rounded with
`(offset + 3) & ~3`. -/
def analyzeProc (p : Proc) : List LocalInfo × Nat × List (String × String × Nat) :=
  let pa := analyzeParamsGo (0, [], []) p.params
  let fin := collectLocalsStmts (pa.1, pa.2.1) p.body
  (fin.2, alignDown4 (fin.1 + 3), pa.2.2)

/-- `CodeGen._choose_frame_register`: the first of a4, a3, a5 not locked by
pragma, falling back to a6. -/
def chooseFrameRegister (locked : List String) : String :=
  if "a4" ∉ locked then "a4"
  else if "a3" ∉ locked then "a3"
  else if "a5" ∉ locked then "a5"
  else "a6"

/-- The per-parameter location comment of `CodeGen.gen`. -/
def paramComment (params : List Param) (indent : String) (pr : Param) : String :=
  match paramReg pr with
  | some reg => indent ++ "; param " ++ pr.name ++ ": " ++ pr.ptype ++ " in " ++ reg
  | none =>
      indent ++ "; param " ++ pr.name ++ ": " ++ pr.ptype ++ " at " ++
        toString (8 + 4 * (stackParams params).indexOf pr) ++ "(a6)"

/-- The per-local location comment of `CodeGen.gen`. -/
def localComment (indent frameReg : String) (l : LocalInfo) : String :=
  indent ++ "; local " ++ l.1 ++ ": " ++ optStr l.2.1 ++ " at " ++
    toString (-(l.2.2 : Int)) ++ "(" ++ frameReg ++ ")"

/-- The save of one mirrored data-register parameter after `link`. -/
def savedRegLine (indent : String) (srp : String × String × Nat) : String :=
  indent ++ "move.l " ++ srp.2.1 ++ "," ++ toString (-(srp.2.2 : Int)) ++
    "(a6)  ; save " ++ srp.1 ++ " from " ++ srp.2.1

/-- The prologue part of the `ast.Proc` branch of `CodeGen.gen`
(codegen.py:3127-3182): choose the frame register, emit the label and
location comments, `link a6` with the computed local size (plus 4 when the
chosen frame register is a4), save the mirrored data-register parameters,
then — when there are locals — save a4 into the bottom of the frame and set
the frame register to a6 when a4 was chosen, while any other choice is
overwritten with a6 without being saved. -/
def genProcPrologue (locked : List String) (indent : String) (p : Proc) (cg : CG) : CG :=
  let frameReg := chooseFrameRegister locked
  let cg1 := emitLine (emitLine cg "") (p.name ++ ":")
  let a := analyzeProc p
  let locals := a.1
  let base := a.2.1
  let saved := a.2.2
  let localsize := if locals.length > 0 ∧ frameReg = "a4" then base + 4 else base
  let cg2 := emitAll cg1 (p.params.map (paramComment p.params indent))
  let cg3 := emitAll cg2 (locals.map (localComment indent frameReg))
  let linkParam := if localsize = 0 then "#0" else "#-" ++ toString localsize
  let cg4 := emitLine cg3 (indent ++ "link a6," ++ linkParam)
  let cg5 := emitAll cg4 (saved.map (savedRegLine indent))
  if locals.length > 0 then
    if frameReg = "a4" then
      emitLine
        (emitLine cg5 (indent ++ "move.l a4,-" ++ toString localsize ++
          "(a6)  ; save a4 in frame"))
        (indent ++ "move.l a6," ++ frameReg ++ "  ; save frame pointer in " ++ frameReg)
    else
      emitLine cg5 (indent ++ "move.l a6," ++ frameReg ++
        "  ; save frame pointer in " ++ frameReg)
  else cg5

/-- The `ast.Proc` branch of `CodeGen.gen` (codegen.py:3127-3201): the
prologue above, then the lowered body, then — when the body contains no
`return` — the implicit epilogue (restoring a4 from its frame slot only when
a4 is the chosen frame register). -/
def genProc (locked : List String) (ctx : Ctx) (indent : String) (p : Proc) (cg : CG) : CG :=
  let frameReg := chooseFrameRegister locked
  let a := analyzeProc p
  let locals := a.1
  let isVoid := p.rettype = "void"
  let cg6 := genProcPrologue locked indent p cg
  let cg7 := emitStmts ctx p.params locals indent isVoid frameReg cg6 p.body
  if p.body.any isRetStmt then cg7
  else
    let cg8 :=
      if locals.length > 0 ∧ frameReg = "a4" then
        emitLine cg7 (indent ++ "move.l -" ++
          toString (alignDown4 (maxOffset locals + 3) + 4) ++
          "(a6),a4  ; restore a4 from frame")
      else cg7
    emitLine (emitLine cg8 (indent ++ "unlk a6")) (indent ++ "rts")

theorem emitStmts_lines_eq (ctx : Ctx) (params : List Param) (locals : List LocalInfo)
    (indent : String) (isVoid : Bool) (frameReg : String) (cg : CG) (ss : List Stmt) :
    ∃ t, (emitStmts ctx params locals indent isVoid frameReg cg ss).lines = cg.lines ++ t := by
  obtain ⟨t, ht⟩ := emitStmtsGrowsLines ctx params locals indent isVoid frameReg ss cg
  exact ⟨t, ht.symm⟩

theorem genProcPrologue_lines_a4 (locked : List String) (indent : String)
    (p : Proc) (cg : CG)
    (h4 : "a4" ∉ locked)
    (hl : (analyzeProc p).1 ≠ []) :
    (genProcPrologue locked indent p cg).lines =
      cg.lines ++ ["", p.name ++ ":"] ++
      p.params.map (paramComment p.params indent) ++
      (analyzeProc p).1.map (localComment indent "a4") ++
      [indent ++ "link a6,#-" ++ toString ((analyzeProc p).2.1 + 4)] ++
      (analyzeProc p).2.2.map (savedRegLine indent) ++
      [indent ++ "move.l a4,-" ++ toString ((analyzeProc p).2.1 + 4) ++
        "(a6)  ; save a4 in frame",
       indent ++ "move.l a6,a4  ; save frame pointer in a4"] := by
  have hfr : chooseFrameRegister locked = "a4" := by simp [chooseFrameRegister, h4]
  have hlen : 0 < (analyzeProc p).1.length := List.length_pos.mpr hl
  unfold genProcPrologue
  rw [hfr]
  simp only [hlen, and_self, if_true, gt_iff_lt]
  rw [if_neg (by omega : ¬((analyzeProc p).2.1 + 4 = 0))]
  simp only [emitLine, emitAll, List.append_assoc, List.cons_append, List.nil_append]
  have hstr : ∀ i : String,
      i ++ "move.l a6," ++ "a4" ++ "  ; save frame pointer in " ++ "a4" =
        i ++ "move.l a6,a4  ; save frame pointer in a4" := by
    intro i
    rw [String.append_assoc, String.append_assoc, String.append_assoc]
    rfl
  have hstr2 : ∀ (i t : String), i ++ "link a6," ++ ("#-" ++ t) = i ++ "link a6,#-" ++ t := by
    intro i t
    rw [← String.append_assoc, String.append_assoc i]
    rfl
  rw [hstr2, hstr]

/-- C5 (counterexample): with a4 locked by pragma, the chosen frame register
is a3 (not a6), yet for a procedure with one local the emitted link size is
the plain 4 bytes (`link a6,#-4`, not `#-8`), the prologue overwrites a3
with a6 (`move.l a6,a3`) without ever saving a3, and the epilogue is a bare
`unlk a6; rts` with no restore — the claimed extra 4 bytes / save / restore
happen for no non-a6 frame register other than a4. -/
theorem c5_locked_a4_no_save_counterexample :
    chooseFrameRegister ["a4"] = "a3" ∧
    ("a3" : String) ≠ "a6" ∧
    genProc ["a4"] ⟨[], []⟩ "    "
        ⟨"f", [], "void", [.varDecl "x" (some "int") none]⟩ ⟨[], 0, []⟩ =
      ⟨["", "f:", "    ; local x: int at -4(a3)", "    link a6,#-4",
        "    move.l a6,a3  ; save frame pointer in a3", "    unlk a6", "    rts"],
       0, []⟩ ∧
    "    link a6,#-8" ∉
      (genProc ["a4"] ⟨[], []⟩ "    "
        ⟨"f", [], "void", [.varDecl "x" (some "int") none]⟩ ⟨[], 0, []⟩).lines ∧
    ((genProc ["a4"] ⟨[], []⟩ "    "
        ⟨"f", [], "void", [.varDecl "x" (some "int") none]⟩ ⟨[], 0, []⟩).lines.all
      (fun l => !(pyStartswith l "    move.l a3,"))) = true := by
  refine ⟨by decide, by decide, by rfl, by decide, by decide⟩

/-- C5 (amended): the extra 4 bytes in the link size, the prologue save of
the frame register into the bottom of the frame together with setting it to
a6, and the implicit-epilogue restore, all happen exactly when the chosen
frame register is a4 (i.e. a4 is not locked): for every procedure with at
least one local slot and no explicit return, the emitted code has
`link a6,#-(N+4)` where N is the analyzed local size, saves a4 at
`-(N+4)(a6)`, copies a6 into a4, and restores a4 before `unlk a6; rts`. -/
theorem c5_a4_frame_save_restore (locked : List String) (ctx : Ctx) (indent : String)
    (p : Proc) (cg : CG)
    (h4 : "a4" ∉ locked)
    (hl : (analyzeProc p).1 ≠ [])
    (hr : p.body.any isRetStmt = false) :
    chooseFrameRegister locked = "a4" ∧
    ∃ bodyLines,
      (genProc locked ctx indent p cg).lines =
        cg.lines ++ ["", p.name ++ ":"] ++
        p.params.map (paramComment p.params indent) ++
        (analyzeProc p).1.map (localComment indent "a4") ++
        [indent ++ "link a6,#-" ++ toString ((analyzeProc p).2.1 + 4)] ++
        (analyzeProc p).2.2.map (savedRegLine indent) ++
        [indent ++ "move.l a4,-" ++ toString ((analyzeProc p).2.1 + 4) ++
          "(a6)  ; save a4 in frame",
         indent ++ "move.l a6,a4  ; save frame pointer in a4"] ++
        bodyLines ++
        [indent ++ "move.l -" ++
          toString (alignDown4 (maxOffset (analyzeProc p).1 + 3) + 4) ++
          "(a6),a4  ; restore a4 from frame",
         indent ++ "unlk a6", indent ++ "rts"] := by
  have hfr : chooseFrameRegister locked = "a4" := by simp [chooseFrameRegister, h4]
  have hlen : 0 < (analyzeProc p).1.length := List.length_pos.mpr hl
  refine ⟨hfr, ?_⟩
  unfold genProc
  rw [hfr]
  simp only [hr, Bool.false_eq_true, if_false, hlen, and_self, if_true]
  obtain ⟨t, ht⟩ := emitStmts_lines_eq ctx p.params (analyzeProc p).1 indent
    (decide (p.rettype = "void")) "a4" (genProcPrologue locked indent p cg) p.body
  refine ⟨t, ?_⟩
  rw [lines_emitLine, lines_emitLine, lines_emitLine, ht,
    genProcPrologue_lines_a4 locked indent p cg h4 hl]
  simp [List.append_assoc]

/-- Witness for C5: a procedure with one local and an unlocked a4, where the
a4 frame-register machinery is emitted. -/
theorem c5_a4_frame_save_restore_witness :
    ("a4" ∉ ([] : List String)) ∧
    (analyzeProc ⟨"f", [], "void", [.varDecl "x" (some "int") none]⟩).1 ≠ [] ∧
    (([.varDecl "x" (some "int") none] : List Stmt).any isRetStmt = false) ∧
    (chooseFrameRegister [] = "a4" ∧
     ∃ bodyLines,
      (genProc [] ⟨[], []⟩ "    " ⟨"f", [], "void", [.varDecl "x" (some "int") none]⟩
          ⟨[], 0, []⟩).lines =
        (⟨[], 0, []⟩ : CG).lines ++ ["", "f:"] ++
        ([] : List Param).map (paramComment [] "    ") ++
        (analyzeProc ⟨"f", [], "void", [.varDecl "x" (some "int") none]⟩).1.map
          (localComment "    " "a4") ++
        ["    " ++ "link a6,#-" ++
          toString ((analyzeProc ⟨"f", [], "void", [.varDecl "x" (some "int") none]⟩).2.1 + 4)] ++
        (analyzeProc ⟨"f", [], "void", [.varDecl "x" (some "int") none]⟩).2.2.map
          (savedRegLine "    ") ++
        ["    " ++ "move.l a4,-" ++
          toString ((analyzeProc ⟨"f", [], "void", [.varDecl "x" (some "int") none]⟩).2.1 + 4) ++
          "(a6)  ; save a4 in frame",
         "    " ++ "move.l a6,a4  ; save frame pointer in a4"] ++
        bodyLines ++
        ["    " ++ "move.l -" ++
          toString (alignDown4
            (maxOffset (analyzeProc ⟨"f", [], "void", [.varDecl "x" (some "int") none]⟩).1 + 3) + 4) ++
          "(a6),a4  ; restore a4 from frame",
         "    " ++ "unlk a6", "    " ++ "rts"]) := by
  refine ⟨by decide, by decide, by decide, ?_⟩
  have h := c5_a4_frame_save_restore [] ⟨[], []⟩ "    "
    ⟨"f", [], "void", [.varDecl "x" (some "int") none]⟩ ⟨[], 0, []⟩
    (by decide) (by decide) (by decide)
  exact h

/-! ## validator.py and cli.py (claim C7)

The module fragment for the driver consists of top-level constant
declarations; the validator's first pass rejects duplicates and
`Validator.validate` raises `ValidationError` exactly when the accumulated
error list is non-empty (validator.py:182-184).  `main` (cli.py:55-91)
parses, validates unless `--no-validate` was given, and only then generates
code and opens the output file for writing; the file system is modelled as
the output file's optional prior content. -/

/-- Module-item fragment: `ast.ConstDecl` at module level. -/
inductive ModItem
  | constDecl (name : String) (value : Int)
deriving DecidableEq, Repr

/-- `ast.Module` on the fragment. -/
structure Module where
  items : List ModItem
deriving DecidableEq, Repr

/-- The first-pass loop of `Validator.validate` on the fragment, with the
mutable `self.constants` / `self.errors` threaded as accumulators. -/
def validateCollectGo (constants : List (String × Int)) (errors : List String) :
    List ModItem → List (String × Int) × List String
  | [] => (constants, errors)
  | .constDecl name value :: rest =>
      if (lookupConst constants name).isSome then
        validateCollectGo constants
          (errors ++ ["Constant " ++ sq ++ name ++ sq ++ " already declared"]) rest
      else validateCollectGo (constants ++ [(name, value)]) errors rest

/-- The first-pass result of `Validator.validate` on the fragment: the
collected constants and the accumulated errors. -/
def validateCollect (items : List ModItem) : List (String × Int) × List String :=
  validateCollectGo [] [] items

/-- The accumulated validator errors of the fragment module. -/
def validatorErrors (m : Module) : List String :=
  (validateCollect m.items).2

/-- `Validator.validate`: raises `ValidationError` with the joined error
text when any error was accumulated, otherwise returns the warnings (none
arise on this fragment). -/
def validatorValidate (m : Module) : Except String (List String) :=
  let errs := validatorErrors m
  if errs ≠ [] then
    .error ("Validation failed:\n" ++ String.intercalate "\n" errs)
  else .ok []

/-- `CodeGen.gen` on the driver fragment: the header comment line, no
sections (module-level constants emit nothing), then `peephole_optimize`
and the newline join. -/
def genModule (_m : Module) : String :=
  String.intercalate "\n" (peepholeOptimize ["; Generated by hasc prototype"])

/-- The tail of `cli.main` after the source bytes were read: parse outcome,
optional validation, code generation, file write.  The result is the
process exit code and the output file's final content (its prior content
when the pipeline aborts before the `open(args.output, "w")`). -/
def cliMain (noValidate : Bool) (parseRes : Except String Module)
    (outPrior : Option String) : Nat × Option String :=
  match parseRes with
  | .error _ => (1, outPrior)
  | .ok mod =>
      if !noValidate then
        match validatorValidate mod with
        | .error _ => (1, outPrior)
        | .ok _ => (0, some (genModule mod))
      else (0, some (genModule mod))

/-- C7: with validation enabled, whenever the parse succeeded but the
validator accumulated at least one error, the driver exits with code 1 and
the output file keeps its prior content (code generation and the write are
never reached); and conversely the output file is written (exit code 0)
only when parsing succeeded and the validator accumulated no errors, in
which case it holds exactly the generated assembly. -/
theorem c7_validation_failure_aborts_before_write
    (parseRes : Except String Module) (outPrior : Option String) :
    (∀ mod, parseRes = .ok mod → validatorErrors mod ≠ [] →
      cliMain false parseRes outPrior = (1, outPrior)) ∧
    (∀ res, cliMain false parseRes outPrior = (0, res) →
      ∃ mod, parseRes = .ok mod ∧ validatorErrors mod = [] ∧ res = some (genModule mod)) := by
  constructor
  · intro mod hok herr
    subst hok
    simp [cliMain, validatorValidate, herr]
  · intro res hres
    match parseRes with
    | .error e => simp [cliMain] at hres
    | .ok mod =>
        refine ⟨mod, rfl, ?_, ?_⟩
        · by_contra herr
          simp [cliMain, validatorValidate, herr] at hres
        · by_cases herr : validatorErrors mod = []
          · simp [cliMain, validatorValidate, herr] at hres
            exact hres.symm
          · simp [cliMain, validatorValidate, herr] at hres

/-- Witness for C7: a module with a duplicate constant declaration makes the
validator report an error, and the driver exits 1 leaving the output file
unwritten. -/
theorem c7_validation_failure_witness :
    ((Except.ok (Module.mk [.constDecl "A" 1, .constDecl "A" 2]) :
        Except String Module) = .ok (Module.mk [.constDecl "A" 1, .constDecl "A" 2])) ∧
    validatorErrors (Module.mk [.constDecl "A" 1, .constDecl "A" 2]) ≠ [] ∧
    cliMain false (.ok (Module.mk [.constDecl "A" 1, .constDecl "A" 2])) none = (1, none) :=
  ⟨rfl, by decide,
    (c7_validation_failure_aborts_before_write
        (.ok (Module.mk [.constDecl "A" 1, .constDecl "A" 2])) none).1
      (Module.mk [.constDecl "A" 1, .constDecl "A" 2]) rfl (by decide)⟩

end Hasc
